import Mathlib

/-!
Verification of the ZhiZhu scraper core (`scraper.py`) against its
natural-language specification.

The development shallowly embeds the pure content of the Python source:

* `sanitize_filename` — filename sanitisation (`scraper.py:53-59`);
* `_scroll_and_collect_links` / `collect_question_answer_links` — the
  infinite-scroll discovery loops (`scraper.py:186-281, 300-396`), modelled
  over an abstract trace of page observations;
* `_fetch_comment_page` / `extract_comments` — cursor-paginated comment
  retrieval (`scraper.py:560-653`), modelled over abstract API oracles;
* the crawl-orchestrator loops of `scrape_user` / `scrape_question`
  (`scraper.py:911-991, 1064-1127`) together with the progress-ledger
  loading and the disk reconciliation scan
  (`_scan_done_urls_from_disk`, `scraper.py:803-823`).

Effectful calls are modelled by explicit oracles (traces); calls that may
raise are given `Except` results, and the embedding propagates or swallows
them exactly where the Python `try`/`except` structure does.  `while` loops
are given an explicit fuel argument; termination claims are stated as
"enough fuel makes the loop return".
-/

set_option maxRecDepth 4000

/-! ### `sanitize_filename` (`scraper.py:53-59`)

```python
def sanitize_filename(name: str) -> str:
    name = re.sub(r'[/\\:*?"<>|\x00-\x1f]', "_", name)
    name = name.strip(" .")
    if len(name) > 120:
        name = name[:120].rstrip(" .")
    return name or "untitled"
```
-/

/-- The character class `[/\\:*?"<>|\x00-\x1f]` of the substitution regex. -/
def badCharB (c : Char) : Bool :=
  c = '/' || c = '\\' || c = ':' || c = '*' || c = '?' || c = '"' ||
  c = '<' || c = '>' || c = '|' || c.toNat ≤ 31

/-- The strip set `" ."` of `str.strip` / `str.rstrip`. -/
def isStripChar (c : Char) : Bool := c = ' ' || c = '.'

/-- Python `name.rstrip(" .")` on a character list. -/
def rstripDots (l : List Char) : List Char :=
  (l.reverse.dropWhile isStripChar).reverse

/-- Python `name.strip(" .")` on a character list. -/
def stripDots (l : List Char) : List Char :=
  rstripDots (l.dropWhile isStripChar)

/-- The regex substitution `re.sub(r'[/\\:*?"<>|\x00-\x1f]', "_", name)`. -/
def replaceBad (l : List Char) : List Char :=
  l.map (fun c => if badCharB c then '_' else c)

/-- `if len(name) > 120: name = name[:120].rstrip(" .")`. -/
def sanitizeTrunc (s : List Char) : List Char :=
  if 120 < s.length then rstripDots (s.take 120) else s

/-- The value of `name` in `sanitize_filename` just before `return name or
"untitled"`: regex substitution, strip, and conditional truncation. -/
def sanitizeCore (l : List Char) : List Char :=
  sanitizeTrunc (stripDots (replaceBad l))

/-- `sanitize_filename` (`scraper.py:53-59`); `name or "untitled"` returns
the sentinel exactly when the processed name is empty. -/
def sanitize_filename (name : String) : String :=
  if (sanitizeCore name.toList).isEmpty then "untitled"
  else String.mk (sanitizeCore name.toList)

/-! ### Infinite-scroll discovery (`scraper.py:186-281` and `300-396`)

The page is modelled by a trace of observations: for the `i`-th loop
iteration, the elements matched by the CSS selector (each read of
`el.get_attribute("href")` either raises — `Except.error` — or yields
`none` / a string), the end-of-list marker, and `document.body.scrollHeight`.
The initial `page.goto` may also raise.
-/

/-- One iteration's view of the page inside the scroll loop. -/
structure StepObs where
  elems : List (Except String (Option String))
  endMarker : Bool
  scrollHeight : Nat

/-- A page pointed at a listing surface: the result of `page.goto` and the
per-iteration observations. -/
structure PageObs where
  gotoRes : Except String Unit
  steps : Nat → StepObs

/-- Python `kw in href` (substring containment) on character lists. -/
def containsSubAux (kw : List Char) : List Char → Bool
  | [] => kw.isEmpty
  | c :: rest => kw.isPrefixOf (c :: rest) || containsSubAux kw rest

/-- Python `kw in href` for strings. -/
def containsSub (kw s : String) : Bool := containsSubAux kw.toList s.toList

/-- Python `href.startswith(pre)`. -/
def strStartsWith (s pre : String) : Bool := pre.toList.isPrefixOf s.toList

/-- URL normalisation of the scroll loops (`scraper.py:222-228`):
protocol-relative and root-relative links are made absolute. -/
def normalizeHref (href : String) : String :=
  if strStartsWith href "//" then "https:" ++ href
  else if strStartsWith href "/" then "https://www.zhihu.com" ++ href
  else if !(strStartsWith href "http") then "https://www.zhihu.com/" ++ href
  else href

/-- Python `href.split("?")[0]`: the part of the string before the first
`?` (the whole string when there is none). -/
def stripQuery (s : String) : String :=
  (s.toList.takeWhile (fun c => !(c = '?'))).asString

/-- Decidable equality for `Except`, used to evaluate runs on concrete
inputs. -/
instance exceptDecEq {ε α : Type} [DecidableEq ε] [DecidableEq α] :
    DecidableEq (Except ε α) := fun a b =>
  match a, b with
  | .error e, .error f =>
    if h : e = f then isTrue (by rw [h])
    else isFalse (by intro hh; cases hh; exact h rfl)
  | .error _, .ok _ => isFalse (by intro hh; cases hh)
  | .ok _, .error _ => isFalse (by intro hh; cases hh)
  | .ok u, .ok v =>
    if h : u = v then isTrue (by rw [h])
    else isFalse (by intro hh; cases hh; exact h rfl)

/-- The per-element body of the link-extraction loop
(`scraper.py:219-230`): a falsy (`none` / empty) href is skipped, the href
is normalised, filtered by keyword containment, and query-stripped.  A read
that raises propagates — the Python loop has no `try` around it. -/
def readLinks (kws : List String) : List (Except String (Option String)) →
    Except String (List String)
  | [] => .ok []
  | e :: rest =>
    match e with
    | .error msg => .error msg
    | .ok none => readLinks kws rest
    | .ok (some href) =>
      if href = "" then readLinks kws rest
      else
        let n := normalizeHref href
        if kws.any (fun kw => containsSub kw n) then
          (readLinks kws rest).map (fun ls => stripQuery n :: ls)
        else readLinks kws rest

/-- A directly-computable decision procedure for `≤` on `String`
(lexicographic), used so that sorted results evaluate on concrete
inputs. -/
instance (priority := 2000) stringDecLE :
    DecidableRel ((· ≤ ·) : String → String → Prop) := fun a b =>
  decidable_of_iff (¬ b.toList < a.toList)
    (by rw [← String.lt_iff_toList_lt]; exact not_lt)

/-- Python `sorted(collected_links)`: the elements of the collected set in
lexicographically ascending order.  (Realised with a structurally
recursive insertion sort so that concrete runs reduce in the kernel; the
output is the unique sorted enumeration of the set.) -/
def sortedLinks (c : Finset String) : List String :=
  Quot.liftOn c.val (fun l => List.insertionSort (· ≤ ·) l)
    (fun _ _ h =>
      List.eq_of_perm_of_sorted
        ((List.perm_insertionSort _ _).trans
          (List.Perm.trans h (List.perm_insertionSort _ _).symm))
        (List.sorted_insertionSort _ _) (List.sorted_insertionSort _ _))

/-- The mutable state of one discovery pass: `collected_links`,
`no_new_count`, `prev_scroll_height`. -/
structure DState where
  collected : Finset String
  noNew : Nat
  prevHeight : Nat

/-- Outcome of one iteration of the scroll loop body. -/
inductive StepRes
  | raise (e : String)
  | stop (c : Finset String)
  | next (s : DState)

/-- `collected_links.update(links)` (`scraper.py:233`): set union. -/
def mergeStep (s : DState) (links : List String) : Finset String :=
  s.collected ∪ links.toFinset

/-- The updated `no_new_count` (`scraper.py:235-239`): reset on any growth
(`new_count = len(collected) - prev_count`), else incremented. -/
def newNoNew (s : DState) (collected : Finset String) : Nat :=
  if collected.card - s.collected.card = 0 then s.noNew + 1 else 0

/-- One iteration of the `_scroll_and_collect_links` loop body
(`scraper.py:215-279`): extract and merge links, update the no-new streak,
then test the end-marker and height convergence signals. -/
def dstep (kws : List String) (obs : StepObs) (s : DState) : StepRes :=
  match readLinks kws obs.elems with
  | .error e => .raise e
  | .ok links =>
    if obs.endMarker ∧ 3 ≤ newNoNew s (mergeStep s links) then
      .stop (mergeStep s links)
    else if obs.scrollHeight = s.prevHeight ∧
        5 ≤ newNoNew s (mergeStep s links) then
      .stop (mergeStep s links)
    else
      .next ⟨mergeStep s links, newNoNew s (mergeStep s links),
        obs.scrollHeight⟩

/-- The `while no_new_count < max_no_new` loop of
`_scroll_and_collect_links` with `max_no_new = 10`, with explicit fuel
(`none` = fuel exhausted).  On exit the collected set is returned
`sorted`. -/
def dloop (kws : List String) : Nat → (Nat → StepObs) → Nat → DState →
    Option (Except String (List String))
  | 0, _, _, _ => none
  | fuel + 1, tr, i, s =>
    if 10 ≤ s.noNew then some (.ok (sortedLinks s.collected))
    else
      match dstep kws (tr i) s with
      | .raise e => some (.error e)
      | .stop c => some (.ok (sortedLinks c))
      | .next s' => dloop kws fuel tr (i + 1) s'

/-- `_scroll_and_collect_links` (`scraper.py:186-281`): navigate, then run
the scroll loop from the empty state. -/
def scrollAndCollectLinks (kws : List String) (fuel : Nat) (pg : PageObs) :
    Option (Except String (List String)) :=
  match pg.gotoRes with
  | .error e => some (.error e)
  | .ok _ => dloop kws fuel pg.steps 0 ⟨∅, 0, 0⟩

/-- Python `if max_answers and len(collected_links) >= max_answers`
(`scraper.py:358`): `0` and `None` are both falsy. -/
def capReached (cap : Option Nat) (n : Nat) : Bool :=
  match cap with
  | none => false
  | some m => if m = 0 then false else m ≤ n

/-- The keyword of the answer filter `f"/question/{question_id}/answer/"`
(`scraper.py:341`). -/
def qKeyword (qid : String) : String := "/question/" ++ qid ++ "/answer/"

/-- One iteration of the `collect_question_answer_links` loop body
(`scraper.py:328-391`): like `dstep` but with the target-count check after
the merge. -/
def qstep (qid : String) (cap : Option Nat) (obs : StepObs) (s : DState) :
    StepRes :=
  match readLinks [qKeyword qid] obs.elems with
  | .error e => .raise e
  | .ok links =>
    if capReached cap (mergeStep s links).card then .stop (mergeStep s links)
    else if obs.endMarker ∧ 3 ≤ newNoNew s (mergeStep s links) then
      .stop (mergeStep s links)
    else if obs.scrollHeight = s.prevHeight ∧
        5 ≤ newNoNew s (mergeStep s links) then
      .stop (mergeStep s links)
    else
      .next ⟨mergeStep s links, newNoNew s (mergeStep s links),
        obs.scrollHeight⟩

/-- `result = sorted(collected_links); if max_answers: result =
result[:max_answers]` (`scraper.py:393-396`). -/
def qfinish (cap : Option Nat) (c : Finset String) : List String :=
  match cap with
  | none => sortedLinks c
  | some m =>
    if m = 0 then sortedLinks c
    else (sortedLinks c).take m

/-- The scroll loop of `collect_question_answer_links` with explicit
fuel. -/
def qloop (qid : String) (cap : Option Nat) : Nat → (Nat → StepObs) → Nat →
    DState → Option (Except String (List String))
  | 0, _, _, _ => none
  | fuel + 1, tr, i, s =>
    if 10 ≤ s.noNew then some (.ok (qfinish cap s.collected))
    else
      match qstep qid cap (tr i) s with
      | .raise e => some (.error e)
      | .stop c => some (.ok (qfinish cap c))
      | .next s' => qloop qid cap fuel tr (i + 1) s'

/-- `collect_question_answer_links` (`scraper.py:300-396`). -/
def collectQuestionAnswerLinks (qid : String) (cap : Option Nat)
    (fuel : Nat) (pg : PageObs) : Option (Except String (List String)) :=
  match pg.gotoRes with
  | .error e => some (.error e)
  | .ok _ => qloop qid cap fuel pg.steps 0 ⟨∅, 0, 0⟩

/-! ### Comment extraction (`scraper.py:560-653`)

The data API is modelled by oracles mapping an offset (and, for children, a
root-comment id) to a raw response.  A raw response is either a transport
failure, a non-OK HTTP status, a JSON-parse failure, or a parsed page.  A
parsed page carries its `data` list (a missing `"data"` key is modelled as
the empty list — Python treats both as falsy) and an optional `paging`
object with an optional `is_end` field.
-/

/-- Outcome of the browser-side `fetch` in `_fetch_comment_page`. -/
inductive RawResp (α : Type)
  | netFail
  | httpNotOk
  | parseFail
  | ok (v : α)
deriving DecidableEq

/-- The `paging` object of a comment-API response. -/
structure CommentPaging where
  is_end : Option Bool
deriving DecidableEq

/-- A raw root comment as delivered by the API; every field the code reads
is optional, matching `dict.get` / `_nested_get`. -/
structure RawComment where
  authorName : Option String
  content : Option String
  created_time : Option Nat
  like_count : Option Nat
  child_comment_count : Option Nat
  id : Option String
deriving DecidableEq

/-- A raw child comment as delivered by the child-comment API. -/
structure RawChild where
  authorName : Option String
  content : Option String
  created_time : Option Nat
  like_count : Option Nat
  replyToName : Option String
deriving DecidableEq

/-- A parsed root-comment page `{ data: [...], paging: {...} }`. -/
structure RootPage where
  data : List RawComment
  paging : Option CommentPaging
deriving DecidableEq

/-- A parsed child-comment page. -/
structure ChildPage where
  data : List RawChild
  paging : Option CommentPaging
deriving DecidableEq

/-- `_fetch_comment_page` (`scraper.py:560-572`): any transport failure,
non-OK status, or JSON failure is absorbed into
`{"data": [], "paging": {"is_end": true}}`. -/
def fetchRootPage (r : RawResp RootPage) : RootPage :=
  match r with
  | .ok v => v
  | _ => { data := [], paging := some { is_end := some true } }

/-- `_fetch_comment_page` used for a child-comment URL. -/
def fetchChildPage (r : RawResp ChildPage) : ChildPage :=
  match r with
  | .ok v => v
  | _ => { data := [], paging := some { is_end := some true } }

/-- Python `data.get("paging", {}).get("is_end", True)`. -/
def pagingIsEnd (p : Option CommentPaging) : Bool :=
  match p with
  | none => true
  | some pg => pg.is_end.getD true

/-- A produced child comment (`scraper.py:627-633`). -/
structure ChildComment where
  author : String
  content : String
  created_time : Nat
  like_count : Nat
  reply_to : String
deriving DecidableEq

/-- A produced root comment with its resolved children
(`scraper.py:603-609`). -/
structure RootOut where
  author : String
  content : String
  created_time : Nat
  like_count : Nat
  child_comments : List ChildComment
deriving DecidableEq

/-- Python `_nested_get(c, "author", "member", "name") or "匿名用户"`:
a missing or empty name falls back to the sentinel. -/
def orAnon (s : Option String) : String :=
  match s with
  | none => "匿名用户"
  | some v => if v = "" then "匿名用户" else v

/-- Build one child comment (`scraper.py:627-633`); missing fields get
explicit defaults. -/
def buildChild (c : RawChild) : ChildComment :=
  { author := orAnon c.authorName
    content := c.content.getD ""
    created_time := c.created_time.getD 0
    like_count := c.like_count.getD 0
    reply_to := c.replyToName.getD "" }

/-- Build a root comment with empty children (`scraper.py:603-609`). -/
def buildRootBase (c : RawComment) : RootOut :=
  { author := orAnon c.authorName
    content := c.content.getD ""
    created_time := c.created_time.getD 0
    like_count := c.like_count.getD 0
    child_comments := [] }

/-- The inner `while True` child-pagination loop (`scraper.py:616-639`)
with explicit fuel: stop on an empty page, append the page's children,
stop when `is_end`, else advance the offset by 20. -/
def childLoop (childApi : String → Nat → RawResp ChildPage) (cid : String) :
    Nat → Nat → List ChildComment → Option (List ChildComment)
  | 0, _, _ => none
  | fuel + 1, offset, acc =>
    if (fetchChildPage (childApi cid offset)).data = [] then some acc
    else if pagingIsEnd (fetchChildPage (childApi cid offset)).paging then
      some (acc ++ (fetchChildPage (childApi cid offset)).data.map buildChild)
    else childLoop childApi cid fuel (offset + 20)
      (acc ++ (fetchChildPage (childApi cid offset)).data.map buildChild)

/-- The `for comment in data["data"]` body (`scraper.py:602-641`): each
root is built in delivered order, and if its declared child count is
positive its children are fully resolved before the next root. -/
def processRoots (childApi : String → Nat → RawResp ChildPage)
    (childFuel : Nat) : List RawComment → Option (List RootOut)
  | [] => some []
  | c :: rest =>
    if 0 < c.child_comment_count.getD 0 then
      match childLoop childApi (c.id.getD "") childFuel 0 [] with
      | none => none
      | some kids =>
        match processRoots childApi childFuel rest with
        | none => none
        | some rs =>
          some ({ buildRootBase c with child_comments := kids } :: rs)
    else
      match processRoots childApi childFuel rest with
      | none => none
      | some rs => some (buildRootBase c :: rs)

/-- The outer `while True` root-pagination loop (`scraper.py:592-647`) with
explicit fuel.  Besides the accumulated comments it returns the list of
offsets passed to the root API — a ghost log recording which requests the
loop issued, used only to state properties of the request sequence. -/
def rootLoop (rootApi : Nat → RawResp RootPage)
    (childApi : String → Nat → RawResp ChildPage) (childFuel : Nat) :
    Nat → Nat → List RootOut → List Nat → Option (List RootOut × List Nat)
  | 0, _, _, _ => none
  | fuel + 1, offset, acc, reqs =>
    if (fetchRootPage (rootApi offset)).data = [] then
      some (acc, reqs ++ [offset])
    else
      match processRoots childApi childFuel (fetchRootPage (rootApi offset)).data with
      | none => none
      | some roots =>
        if pagingIsEnd (fetchRootPage (rootApi offset)).paging then
          some (acc ++ roots, reqs ++ [offset])
        else rootLoop rootApi childApi childFuel fuel (offset + 20)
          (acc ++ roots) (reqs ++ [offset])

/-- `extract_comments` (`scraper.py:575-653`): run the root loop from
offset 0 with `limit = 20`. -/
def extractComments (rootApi : Nat → RawResp RootPage)
    (childApi : String → Nat → RawResp ChildPage)
    (rootFuel childFuel : Nat) : Option (List RootOut × List Nat) :=
  rootLoop rootApi childApi childFuel rootFuel 0 [] []

/-- The offsets `offset, offset+20, …` of `n` consecutive page requests. -/
def reqList : Nat → Nat → List Nat
  | _, 0 => []
  | offset, n + 1 => offset :: reqList (offset + 20) n

/-- The children delivered by `n` consecutive child pages starting at
`offset`, in page-then-intra-page order. -/
def flatChildren (childApi : String → Nat → RawResp ChildPage)
    (cid : String) : Nat → Nat → List ChildComment
  | _, 0 => []
  | offset, n + 1 =>
    (fetchChildPage (childApi cid offset)).data.map buildChild ++
      flatChildren childApi cid (offset + 20) n

/-- The processed roots of `n` consecutive root pages starting at `offset`,
in page-then-intra-page order. -/
def flatRoots (rootApi : Nat → RawResp RootPage)
    (childApi : String → Nat → RawResp ChildPage) (childFuel : Nat) :
    Nat → Nat → Option (List RootOut)
  | _, 0 => some []
  | offset, n + 1 =>
    match processRoots childApi childFuel
        (fetchRootPage (rootApi offset)).data with
    | none => none
    | some rs =>
      match flatRoots rootApi childApi childFuel (offset + 20) n with
      | none => none
      | some rest => some (rs ++ rest)

/-! ### Crawl orchestrator and progress ledger (`scraper.py:803-823, 911-991, 1064-1127`)

The environment of a run is the state of `progress.json` (missing,
unparsable, or a parsed `{"done": [...]}` list) and the on-disk artifacts.
An artifact is modelled by the source URL its header's provenance field
yields under the scan regex of `_scan_done_urls_from_disk` — `none` when
the read fails or the pattern does not match (such a file contributes no
URL).  The per-item work `extract_answer`/`extract_article` +
`save_content_as_markdown` is an oracle from the item to success or a
raised error.
-/

/-- Content kind of a work item (`all_urls` pairs each URL with
`"answer"` or `"article"`). -/
inductive Kind
  | answer
  | article
deriving DecidableEq

/-- An on-disk `index.md`, represented by the provenance URL the scan
recovers from it (if any). -/
structure Artifact where
  provenance : Option String
deriving DecidableEq

/-- Durable state visible to a run when it starts. -/
structure LedgerEnv where
  progressFile : Option (Except String (List String))
  disk : List Artifact

/-- Loading `progress.json` (`scraper.py:913-919`): a missing or
unparsable file yields the empty set, otherwise the `"done"` list. -/
def loadDone (pf : Option (Except String (List String))) : Finset String :=
  match pf with
  | none => ∅
  | some (.error _) => ∅
  | some (.ok l) => l.toFinset

/-- `_scan_done_urls_from_disk` (`scraper.py:803-823`): collect the
recoverable provenance URLs of the artifacts. -/
def scanDoneUrlsFromDisk (disk : List Artifact) : Finset String :=
  (disk.filterMap Artifact.provenance).toFinset

/-- The done set after reconciliation (`scraper.py:921-925`): the loaded
set unioned with the disk scan.  (The source guards the union with
`if disk_urls - done_urls:`, which never changes the resulting set.) -/
def initialDone (env : LedgerEnv) : Finset String :=
  loadDone env.progressFile ∪ scanDoneUrlsFromDisk env.disk

/-- The loop state of the per-item crawl (`scraper.py:939-982`):
`done_urls`, `success_count`, `fail_count`, plus a ghost log of the URLs
for which a fetch was actually attempted (in order), used only to state
skip-vs-fetch properties. -/
structure RunState where
  done : Finset String
  succ : Nat
  failed : Nat
  attempted : List String
deriving DecidableEq

/-- One iteration of the `scrape_user` item loop (`scraper.py:942-982`):
an already-done URL is skipped and counted as a success; otherwise the item
is fetched — on success it is marked done and counted, on failure only
`fail_count` grows. -/
def runStep (fetch : String → Kind → Except String Unit) (s : RunState)
    (item : String × Kind) : RunState :=
  if item.1 ∈ s.done then { s with succ := s.succ + 1 }
  else
    match fetch item.1 item.2 with
    | .ok _ =>
      { done := insert item.1 s.done
        succ := s.succ + 1
        failed := s.failed
        attempted := s.attempted ++ [item.1] }
    | .error _ =>
      { s with failed := s.failed + 1
               attempted := s.attempted ++ [item.1] }

/-- The `for idx, (url, content_type) in enumerate(all_urls, 1)` loop. -/
def runLoop (fetch : String → Kind → Except String Unit)
    (manifest : List (String × Kind)) (s : RunState) : RunState :=
  manifest.foldl (runStep fetch) s

/-- The resume-and-crawl portion of `scrape_user` (`scraper.py:911-991`):
load the ledger, reconcile with the disk scan, then run the item loop. -/
def scrapeUserRun (env : LedgerEnv)
    (fetch : String → Kind → Except String Unit)
    (manifest : List (String × Kind)) : RunState :=
  runLoop fetch manifest ⟨initialDone env, 0, 0, []⟩

/-- One iteration of the `scrape_question` item loop
(`scraper.py:1093-1126`); identical to `runStep` except that every item is
an answer URL. -/
def runStepQ (fetch : String → Except String Unit) (s : RunState)
    (url : String) : RunState :=
  if url ∈ s.done then { s with succ := s.succ + 1 }
  else
    match fetch url with
    | .ok _ =>
      { done := insert url s.done
        succ := s.succ + 1
        failed := s.failed
        attempted := s.attempted ++ [url] }
    | .error _ =>
      { s with failed := s.failed + 1
               attempted := s.attempted ++ [url] }

/-- The `for idx, url in enumerate(answer_urls, 1)` loop of
`scrape_question`. -/
def runLoopQ (fetch : String → Except String Unit) (urls : List String)
    (s : RunState) : RunState :=
  urls.foldl (runStepQ fetch) s

/-- The resume-and-crawl portion of `scrape_question`
(`scraper.py:1064-1127`). -/
def scrapeQuestionRun (env : LedgerEnv)
    (fetch : String → Except String Unit) (urls : List String) : RunState :=
  runLoopQ fetch urls ⟨initialDone env, 0, 0, []⟩

/-- Bool test: the item's URL is already in the done set. -/
def inDoneB (done : Finset String) (it : String × Kind) : Bool :=
  decide (it.1 ∈ done)

/-- Bool test: the item's URL is pending (not in the done set). -/
def pendB (done : Finset String) (it : String × Kind) : Bool :=
  !decide (it.1 ∈ done)

/-- Bool test: fetching the item succeeds. -/
def fetchOk (fetch : String → Kind → Except String Unit)
    (it : String × Kind) : Bool :=
  match fetch it.1 it.2 with
  | .ok _ => true
  | .error _ => false

/-- Bool test for the question loop: fetching the URL succeeds. -/
def fetchOkQ (fetch : String → Except String Unit) (u : String) : Bool :=
  match fetch u with
  | .ok _ => true
  | .error _ => false

/-! ### Concrete instances used to exercise the definitions -/

/-- A page whose scroll loop never sees any element. -/
def pgEmpty : PageObs :=
  { gotoRes := .ok (), steps := fun _ => ⟨[], false, 0⟩ }

/-- A page whose first scroll iteration contains an element whose
attribute read raises. -/
def pgBad : PageObs :=
  { gotoRes := .ok ()
    steps := fun i =>
      if i = 0 then ⟨[.error "boom"], false, 0⟩ else ⟨[], false, 0⟩ }

/-- A page where navigation itself fails. -/
def pgNoNav : PageObs :=
  { gotoRes := .error "net::ERR_FAILED", steps := fun _ => ⟨[], false, 0⟩ }

/-- A concrete answer URL of question 1. -/
def ansUrl : String := "https://www.zhihu.com/question/1/answer/2"

/-- A page delivering exactly one answer link on its first iteration. -/
def pgOne : PageObs :=
  { gotoRes := .ok ()
    steps := fun i =>
      if i = 0 then ⟨[.ok (some ansUrl)], false, 0⟩ else ⟨[], false, 0⟩ }

/-- A sample root comment with no children. -/
def rcSample : RawComment :=
  { authorName := some "a", content := some "hi", created_time := some 1
    like_count := some 0, child_comment_count := some 0, id := some "c1" }

/-- A mock root-comment API: pages of 20 items at offsets 0, 20, 40, then a
transport failure (which `_fetch_comment_page` turns into an empty
page). -/
def mockRootApi : Nat → RawResp RootPage := fun offset =>
  if offset < 60 then
    .ok { data := List.replicate 20 rcSample, paging := some ⟨some false⟩ }
  else .netFail

/-- A mock child-comment API that always answers with an empty final
page. -/
def mockChildApi : String → Nat → RawResp ChildPage := fun _ _ =>
  .ok { data := [], paging := some ⟨some true⟩ }

/-- The 60 comments the mock root API delivers. -/
def mockItems : List RootOut := List.replicate 60 (buildRootBase rcSample)

/-- A root comment declaring two children. -/
def rcParent : RawComment :=
  { authorName := some "p", content := some "root", created_time := some 1
    like_count := some 2, child_comment_count := some 2, id := some "cid7" }

/-- First child, delivered on child page at offset 0. -/
def rchild1 : RawChild :=
  { authorName := some "u1", content := some "one", created_time := some 10
    like_count := some 1, replyToName := none }

/-- Second child, delivered on child page at offset 20. -/
def rchild2 : RawChild :=
  { authorName := some "u2", content := some "two", created_time := some 11
    like_count := some 0, replyToName := some "u1" }

/-- A root API delivering one root comment on a single final page. -/
def c6RootApi : Nat → RawResp RootPage := fun offset =>
  if offset = 0 then .ok { data := [rcParent], paging := some ⟨some true⟩ }
  else .netFail

/-- A child API delivering the two children of `rcParent` across two
paginated child pages. -/
def c6ChildApi : String → Nat → RawResp ChildPage := fun cid offset =>
  if cid = "cid7" then
    if offset = 0 then .ok { data := [rchild1], paging := some ⟨some false⟩ }
    else if offset = 20 then
      .ok { data := [rchild2], paging := some ⟨some true⟩ }
    else .ok { data := [], paging := some ⟨some true⟩ }
  else .ok { data := [], paging := some ⟨some true⟩ }

/-- The comment tree built from `rcParent` with its two children in
page-then-intra-page order. -/
def c6Root : RootOut :=
  { buildRootBase rcParent with
      child_comments := [buildChild rchild1, buildChild rchild2] }

/-- Concrete item URLs for orchestrator runs. -/
def urlA : String := "https://www.zhihu.com/question/1/answer/11"

/-- Second item URL. -/
def urlB : String := "https://www.zhihu.com/question/1/answer/12"

/-- Third item URL. -/
def urlC : String := "https://www.zhihu.com/question/1/answer/13"

/-- Fourth item URL. -/
def urlD : String := "https://zhuanlan.zhihu.com/p/14"

/-- Fifth item URL. -/
def urlE : String := "https://zhuanlan.zhihu.com/p/15"

/-- A fresh environment: no progress record, empty output tree. -/
def envFresh : LedgerEnv := { progressFile := none, disk := [] }

/-- No progress record, but artifacts for `urlA` and `urlC` on disk. -/
def envDiskAC : LedgerEnv :=
  { progressFile := none, disk := [⟨some urlA⟩, ⟨some urlC⟩] }

/-- A five-item manifest in a fixed order. -/
def manifest5 : List (String × Kind) :=
  [(urlA, .answer), (urlB, .answer), (urlC, .answer),
   (urlD, .article), (urlE, .article)]

/-- A fetch oracle that fails (only) on the third manifest item. -/
def fetchFail3 : String → Kind → Except String Unit := fun u _ =>
  if u = urlC then .error "TransportFailure" else .ok ()

/-- A fetch oracle that always succeeds. -/
def fetchAllOk : String → Kind → Except String Unit := fun _ _ => .ok ()

/-- A question-loop fetch oracle that always succeeds. -/
def fetchAllOkQ : String → Except String Unit := fun _ => .ok ()

/-- An environment whose progress record is the persisted done set of the
run `scrapeUserRun envDiskAC fetchFail3 manifest5`. -/
def envNext : LedgerEnv :=
  { progressFile :=
      some (.ok
        (sortedLinks (scrapeUserRun envDiskAC fetchFail3 manifest5).done))
    disk := [] }

/-- An environment whose progress record already marks `urlA` done. -/
def envDoneA : LedgerEnv := { progressFile := some (.ok [urlA]), disk := [] }

/-! ### Lemmas about `sanitize_filename` -/

theorem head?_dropWhile_false (p : Char → Bool) (l : List Char) :
    ∀ c, (l.dropWhile p).head? = some c → p c = false := by
  induction l with
  | nil => intro c h; simp [List.dropWhile] at h
  | cons a t ih =>
    intro c h
    by_cases hp : p a
    · rw [List.dropWhile_cons_of_pos hp] at h
      exact ih c h
    · rw [List.dropWhile_cons_of_neg hp] at h
      simp only [List.head?_cons, Option.some.injEq] at h
      subst h
      simpa using hp

theorem exists_dropWhile_append (p : Char → Bool) (l : List Char) :
    ∃ t, t ++ l.dropWhile p = l := by
  induction l with
  | nil => exact ⟨[], rfl⟩
  | cons a t ih =>
    by_cases hp : p a
    · obtain ⟨u, hu⟩ := ih
      exact ⟨a :: u, by rw [List.dropWhile_cons_of_pos hp, List.cons_append, hu]⟩
    · exact ⟨[], by rw [List.dropWhile_cons_of_neg hp]; rfl⟩

theorem head?_append_some {l t : List Char} {c : Char}
    (h : l.head? = some c) : (l ++ t).head? = some c := by
  cases l with
  | nil => simp at h
  | cons a u => simpa using h

theorem head?_rstripDots (l : List Char) (c : Char)
    (h : (rstripDots l).head? = some c) : l.head? = some c := by
  obtain ⟨t, ht⟩ := exists_dropWhile_append isStripChar l.reverse
  have hl : l = (l.reverse.dropWhile isStripChar).reverse ++ t.reverse := by
    conv_lhs => rw [← List.reverse_reverse l, ← ht]
    rw [List.reverse_append]
  rw [hl]
  exact head?_append_some h

theorem getLast?_rstripDots (l : List Char) (c : Char)
    (h : (rstripDots l).getLast? = some c) : isStripChar c = false := by
  unfold rstripDots at h
  rw [List.getLast?_reverse] at h
  exact head?_dropWhile_false isStripChar l.reverse c h

theorem mem_rstripDots {l : List Char} {c : Char}
    (h : c ∈ rstripDots l) : c ∈ l := by
  unfold rstripDots at h
  rw [List.mem_reverse] at h
  have h2 := (List.dropWhile_sublist isStripChar).subset h
  rwa [List.mem_reverse] at h2

theorem length_rstripDots_le (l : List Char) :
    (rstripDots l).length ≤ l.length := by
  unfold rstripDots
  rw [List.length_reverse]
  calc (l.reverse.dropWhile isStripChar).length
      ≤ l.reverse.length := (List.dropWhile_sublist isStripChar).length_le
    _ = l.length := List.length_reverse l

theorem mem_stripDots {l : List Char} {c : Char}
    (h : c ∈ stripDots l) : c ∈ l := by
  unfold stripDots at h
  exact (List.dropWhile_sublist isStripChar).subset (mem_rstripDots h)

theorem head?_stripDots (l : List Char) (c : Char)
    (h : (stripDots l).head? = some c) : isStripChar c = false := by
  unfold stripDots at h
  exact head?_dropWhile_false isStripChar l c (head?_rstripDots _ c h)

theorem getLast?_stripDots (l : List Char) (c : Char)
    (h : (stripDots l).getLast? = some c) : isStripChar c = false := by
  unfold stripDots at h
  exact getLast?_rstripDots _ c h

theorem head?_take_some {l : List Char} {n : Nat} {c : Char}
    (h : (l.take (n + 1)).head? = some c) : l.head? = some c := by
  cases l with
  | nil => simp at h
  | cons a u => simpa using h

theorem mem_replaceBad {l : List Char} {c : Char} (h : c ∈ replaceBad l) :
    badCharB c = false := by
  obtain ⟨a, _, ha⟩ := List.mem_map.mp h
  by_cases hb : badCharB a
  · rw [if_pos hb] at ha
    subst ha
    decide
  · rw [if_neg hb] at ha
    subst ha
    simpa using hb

theorem sanitizeCore_spec (l : List Char) :
    (sanitizeCore l).length ≤ 120 ∧
    (∀ c ∈ sanitizeCore l, badCharB c = false) ∧
    (∀ c, (sanitizeCore l).head? = some c → isStripChar c = false) ∧
    (∀ c, (sanitizeCore l).getLast? = some c → isStripChar c = false) := by
  unfold sanitizeCore sanitizeTrunc
  by_cases hlen : 120 < (stripDots (replaceBad l)).length
  · rw [if_pos hlen]
    refine ⟨?_, ?_, ?_, ?_⟩
    · calc (rstripDots ((stripDots (replaceBad l)).take 120)).length
          ≤ ((stripDots (replaceBad l)).take 120).length :=
            length_rstripDots_le _
        _ ≤ 120 := by
            rw [List.length_take]
            exact min_le_left _ _
    · intro c hc
      exact mem_replaceBad
        (mem_stripDots ((List.take_sublist _ _).subset (mem_rstripDots hc)))
    · intro c hc
      exact head?_stripDots _ c
        (head?_take_some (n := 119) (head?_rstripDots _ c hc))
    · intro c hc
      exact getLast?_rstripDots _ c hc
  · rw [if_neg hlen]
    refine ⟨by omega, ?_, ?_, ?_⟩
    · intro c hc
      exact mem_replaceBad (mem_stripDots hc)
    · intro c hc
      exact head?_stripDots _ c hc
    · intro c hc
      exact getLast?_stripDots _ c hc

/-- C9: `sanitize_filename` is total and always yields a valid, bounded
name — for every input the result is a non-empty string of at most 120
characters, contains no filesystem-forbidden or control character, and
neither begins nor ends with a space or a dot; when the input sanitises to
the empty string the result is the sentinel `"untitled"`. -/
theorem sanitize_filename_valid (name : String) :
    sanitize_filename name ≠ "" ∧
    (sanitize_filename name).toList.length ≤ 120 ∧
    (sanitize_filename name).toList.all (fun c => !badCharB c) = true ∧
    (sanitize_filename name).toList.head?.all
      (fun c => !isStripChar c) = true ∧
    (sanitize_filename name).toList.getLast?.all
      (fun c => !isStripChar c) = true ∧
    (sanitizeCore name.toList = [] → sanitize_filename name = "untitled") := by
  obtain ⟨h120, hmem, hhead, hlast⟩ := sanitizeCore_spec name.toList
  unfold sanitize_filename
  by_cases hE : (sanitizeCore name.toList).isEmpty
  · rw [if_pos hE]
    exact ⟨by decide, by decide, by decide, by decide, by decide,
      fun _ => rfl⟩
  · rw [if_neg hE]
    have htl : (String.mk (sanitizeCore name.toList)).toList
        = sanitizeCore name.toList := rfl
    refine ⟨?_, ?_, ?_, ?_, ?_, ?_⟩
    · intro h
      apply hE
      have hd : sanitizeCore name.toList = [] := congrArg String.data h
      rw [hd]
      rfl
    · rw [htl]; exact h120
    · rw [htl, List.all_eq_true]
      intro c hc
      rw [Bool.not_eq_true']
      exact hmem c hc
    · rw [htl]
      cases hh : (sanitizeCore name.toList).head? with
      | none => rfl
      | some c =>
        simp only [Option.all_some, Bool.not_eq_true']
        exact hhead c hh
    · rw [htl]
      cases hh : (sanitizeCore name.toList).getLast? with
      | none => rfl
      | some c =>
        simp only [Option.all_some, Bool.not_eq_true']
        exact hlast c hh
    · intro h
      rw [h] at hE
      exact absurd rfl hE

/-- Witness for `sanitize_filename_valid` at the empty input, where the
core sanitisation is empty and the sentinel is returned. -/
theorem sanitize_filename_valid_witness :
    sanitizeCore "".toList = [] ∧ sanitize_filename "" = "untitled" :=
  ⟨by decide, (sanitize_filename_valid "").2.2.2.2.2 (by decide)⟩

/-! ### Lemmas about the discovery loops -/

theorem sortedLinks_sorted (c : Finset String) :
    (sortedLinks c).Sorted (· ≤ ·) := by
  rcases c with ⟨val, nd⟩
  induction val using Quot.inductionOn with
  | h l => exact List.sorted_insertionSort _ l

theorem sortedLinks_nodup (c : Finset String) : (sortedLinks c).Nodup := by
  rcases c with ⟨val, nd⟩
  induction val using Quot.inductionOn with
  | h l =>
    have hnd : l.Nodup := nd
    exact (List.Perm.nodup_iff (List.perm_insertionSort _ l)).mpr hnd

theorem dloop_isSome (kws : List String) (tr : Nat → StepObs)
    (U : Finset String)
    (hU : ∀ i links, readLinks kws (tr i).elems = Except.ok links →
      ∀ l ∈ links, l ∈ U) :
    ∀ fuel s i, s.collected ⊆ U →
      11 * (U.card - s.collected.card) + (10 - s.noNew) < fuel →
      (dloop kws fuel tr i s).isSome = true := by
  intro fuel
  induction fuel with
  | zero => intro s i _ hm; exact absurd hm (by omega)
  | succ fuel ih =>
    intro s i hsub hm
    rw [dloop]
    by_cases h10 : 10 ≤ s.noNew
    · rw [if_pos h10]
      rfl
    · rw [if_neg h10]
      cases hre : readLinks kws (tr i).elems with
      | error e =>
        have hds : dstep kws (tr i) s = .raise e := by
          simp [dstep, hre]
        rw [hds]
        rfl
      | ok links =>
        have hsub2 : mergeStep s links ⊆ U := by
          apply Finset.union_subset hsub
          intro x hx
          exact hU i links hre x (List.mem_toFinset.mp hx)
        have hc1 : s.collected.card ≤ (mergeStep s links).card :=
          Finset.card_le_card Finset.subset_union_left
        have hc2 : (mergeStep s links).card ≤ U.card :=
          Finset.card_le_card hsub2
        simp only [dstep, hre]
        split_ifs
        · rfl
        · rfl
        · refine ih _ (i + 1) hsub2 ?_
          show 11 * (U.card - (mergeStep s links).card) +
              (10 - newNoNew s (mergeStep s links)) < fuel
          unfold newNoNew
          split_ifs with hnc
          · omega
          · omega

theorem qloop_ok_shape (qid : String) (cap : Option Nat) :
    ∀ fuel tr i s out, qloop qid cap fuel tr i s = some (Except.ok out) →
      ∃ c, out = qfinish cap c := by
  intro fuel
  induction fuel with
  | zero => intro tr i s out h; simp [qloop] at h
  | succ fuel ih =>
    intro tr i s out h
    rw [qloop] at h
    by_cases h10 : 10 ≤ s.noNew
    · rw [if_pos h10] at h
      have h' : some (Except.ok (qfinish cap s.collected)) =
          some (Except.ok out) := h
      simp only [Option.some.injEq, Except.ok.injEq] at h'
      exact ⟨s.collected, h'.symm⟩
    · rw [if_neg h10] at h
      cases hq : qstep qid cap (tr i) s with
      | raise e =>
        rw [hq] at h
        have h' : some (Except.error e) = some (Except.ok out) := h
        simp at h'
      | stop c =>
        rw [hq] at h
        have h' : some (Except.ok (qfinish cap c)) =
            some (Except.ok out) := h
        simp only [Option.some.injEq, Except.ok.injEq] at h'
        exact ⟨c, h'.symm⟩
      | next s' =>
        rw [hq] at h
        exact ih tr (i + 1) s' out h

theorem dloop_ok_shape (kws : List String) :
    ∀ fuel tr i s out, dloop kws fuel tr i s = some (Except.ok out) →
      ∃ c, out = sortedLinks c := by
  intro fuel
  induction fuel with
  | zero => intro tr i s out h; simp [dloop] at h
  | succ fuel ih =>
    intro tr i s out h
    rw [dloop] at h
    by_cases h10 : 10 ≤ s.noNew
    · rw [if_pos h10] at h
      have h' : some (Except.ok (sortedLinks s.collected)) =
          some (Except.ok out) := h
      simp only [Option.some.injEq, Except.ok.injEq] at h'
      exact ⟨s.collected, h'.symm⟩
    · rw [if_neg h10] at h
      cases hq : dstep kws (tr i) s with
      | raise e =>
        rw [hq] at h
        have h' : some (Except.error e) = some (Except.ok out) := h
        simp at h'
      | stop c =>
        rw [hq] at h
        have h' : some (Except.ok (sortedLinks c)) =
            some (Except.ok out) := h
        simp only [Option.some.injEq, Except.ok.injEq] at h'
        exact ⟨c, h'.symm⟩
      | next s' =>
        rw [hq] at h
        exact ih tr (i + 1) s' out h

theorem qfinish_spec (cap : Option Nat) (c : Finset String) :
    (qfinish cap c).Sorted (· ≤ ·) ∧ (qfinish cap c).Nodup ∧
      ∀ m, cap = some m → 0 < m → (qfinish cap c).length ≤ m := by
  cases cap with
  | none =>
    refine ⟨sortedLinks_sorted _, sortedLinks_nodup _, ?_⟩
    intro m hm
    cases hm
  | some m =>
    by_cases hm0 : m = 0
    · simp only [qfinish, if_pos hm0]
      refine ⟨sortedLinks_sorted _, sortedLinks_nodup _, ?_⟩
      intro m' hm' hpos
      injection hm' with h
      omega
    · simp only [qfinish, if_neg hm0]
      refine ⟨List.Pairwise.sublist (List.take_sublist _ _)
          (sortedLinks_sorted _),
        List.Pairwise.sublist (List.take_sublist _ _)
          (sortedLinks_nodup _), ?_⟩
      intro m' hm' _
      injection hm' with h
      subst h
      rw [List.length_take]
      exact min_le_left _ _

theorem qstep_next_not_cap (qid : String) (cap : Option Nat)
    (obs : StepObs) (s s' : DState) (h : qstep qid cap obs s = .next s') :
    capReached cap s'.collected.card = false := by
  unfold qstep at h
  cases hre : readLinks [qKeyword qid] obs.elems with
  | error e =>
    rw [hre] at h
    have h' : StepRes.raise e = .next s' := h
    cases h'
  | ok links =>
    rw [hre] at h
    by_cases hc : capReached cap (mergeStep s links).card
    · have h' : StepRes.stop (mergeStep s links) = .next s' := by
        rw [← h]
        simp [hc]
      cases h'
    · have hcf : capReached cap (mergeStep s links).card = false := by
        simpa using hc
      have hcol : s'.collected = mergeStep s links := by
        by_cases h3 : obs.endMarker ∧ 3 ≤ newNoNew s (mergeStep s links)
        · have h' : StepRes.stop (mergeStep s links) = .next s' := by
            rw [← h]
            simp [hc, h3]
          cases h'
        · by_cases h4 : obs.scrollHeight = s.prevHeight ∧
              5 ≤ newNoNew s (mergeStep s links)
          · have h' : StepRes.stop (mergeStep s links) = .next s' := by
              rw [← h]
              simp [hc, h3, h4]
            cases h'
          · have h' : StepRes.next ⟨mergeStep s links,
                newNoNew s (mergeStep s links), obs.scrollHeight⟩
                = .next s' := by
              rw [← h]
              simp [hc, h3, h4]
            injection h' with h5
            exact congrArg DState.collected h5.symm
      rw [hcol]
      exact hcf

theorem readLinks_append_none (kws : List String)
    (xs ys : List (Except String (Option String))) :
    readLinks kws (xs ++ Except.ok none :: ys) = readLinks kws (xs ++ ys) := by
  induction xs with
  | nil => simp [readLinks]
  | cons e xs ih =>
    cases e with
    | error msg => simp [readLinks]
    | ok o =>
      cases o with
      | none => simpa [readLinks] using ih
      | some href => simp [readLinks, ih]

theorem readLinks_ok_of_no_error (kws : List String)
    (elems : List (Except String (Option String)))
    (h : ∀ e ∈ elems, ∀ msg, e ≠ Except.error msg) :
    ∃ links, readLinks kws elems = Except.ok links := by
  induction elems with
  | nil => exact ⟨[], rfl⟩
  | cons e rest ih =>
    obtain ⟨links, hl⟩ := ih (fun e' he' => h e' (List.mem_cons_of_mem _ he'))
    cases e with
    | error msg => exact absurd rfl (h _ (List.mem_cons_self _ _) msg)
    | ok o =>
      cases o with
      | none => exact ⟨links, by simpa [readLinks] using hl⟩
      | some href =>
        by_cases h0 : href = ""
        · exact ⟨links, by simp [readLinks, h0, hl]⟩
        · by_cases hkw : kws.any (fun kw => containsSub kw (normalizeHref href))
          · exact ⟨stripQuery (normalizeHref href) :: links,
              by simp [readLinks, h0, hkw, hl, Except.map]⟩
          · exact ⟨links, by simp [readLinks, h0, hkw, hl]⟩

theorem dloop_no_error (kws : List String) (tr : Nat → StepObs)
    (hcl : ∀ i e, e ∈ (tr i).elems → ∀ msg, e ≠ Except.error msg) :
    ∀ fuel i s msg, dloop kws fuel tr i s ≠ some (Except.error msg) := by
  intro fuel
  induction fuel with
  | zero => intro i s msg h; simp [dloop] at h
  | succ fuel ih =>
    intro i s msg h
    rw [dloop] at h
    by_cases h10 : 10 ≤ s.noNew
    · rw [if_pos h10] at h
      have h' : some (Except.ok (sortedLinks s.collected)) =
          some (Except.error msg) := h
      simp at h'
    · rw [if_neg h10] at h
      obtain ⟨links, hl⟩ := readLinks_ok_of_no_error kws (tr i).elems (hcl i)
      simp only [dstep, hl] at h
      split_ifs at h
      · simp at h
      · simp at h
      · exact ih (i + 1) _ msg h

theorem collectQ_ok_shape (qid : String) (cap : Option Nat) (fuel : Nat)
    (pg : PageObs) (out : List String)
    (h : collectQuestionAnswerLinks qid cap fuel pg = some (Except.ok out)) :
    ∃ c, out = qfinish cap c := by
  unfold collectQuestionAnswerLinks at h
  cases hg : pg.gotoRes with
  | error e =>
    rw [hg] at h
    have h' : some (Except.error e) = some (Except.ok out) := h
    simp at h'
  | ok u =>
    rw [hg] at h
    exact qloop_ok_shape qid cap fuel pg.steps 0 _ out h

theorem scroll_ok_shape (kws : List String) (fuel : Nat) (pg : PageObs)
    (out : List String)
    (h : scrollAndCollectLinks kws fuel pg = some (Except.ok out)) :
    ∃ c, out = sortedLinks c := by
  unfold scrollAndCollectLinks at h
  cases hg : pg.gotoRes with
  | error e =>
    rw [hg] at h
    have h' : some (Except.error e) = some (Except.ok out) := h
    simp at h'
  | ok u =>
    rw [hg] at h
    exact dloop_ok_shape kws fuel pg.steps 0 _ out h

/-- C4: discovery termination — over any trace whose extracted links come
from a finite universe `U`, the scroll loop of `_scroll_and_collect_links`
returns within `11 * |U| + 11` iterations; moreover, whatever the
end-of-list and height signals do, the loop exits as soon as the no-new
streak has reached the hard ceiling of 10, returning the sorted collected
set. -/
theorem discovery_terminates (kws : List String) (pg : PageObs)
    (U : Finset String) (fuel : Nat)
    (hU : ∀ i links, readLinks kws (pg.steps i).elems = Except.ok links →
      ∀ l ∈ links, l ∈ U)
    (hfuel : 11 * U.card + 11 ≤ fuel) :
    (scrollAndCollectLinks kws fuel pg).isSome = true ∧
    ∀ f tr i s, 10 ≤ s.noNew →
      dloop kws (f + 1) tr i s =
        some (Except.ok (sortedLinks s.collected)) := by
  constructor
  · unfold scrollAndCollectLinks
    cases pg.gotoRes with
    | error e => rfl
    | ok u =>
      refine dloop_isSome kws pg.steps U hU fuel ⟨∅, 0, 0⟩ 0
        (Finset.empty_subset U) ?_
      show 11 * (U.card - (∅ : Finset String).card) + (10 - 0) < fuel
      rw [Finset.card_empty]
      omega
  · intro f tr i s h10
    rw [dloop, if_pos h10]

/-- Witness for `discovery_terminates`: the empty page, an empty link
universe, and fuel 11. -/
theorem discovery_terminates_witness :
    (∀ i links, readLinks [] (pgEmpty.steps i).elems = Except.ok links →
      ∀ l ∈ links, l ∈ (∅ : Finset String)) ∧
    11 * (∅ : Finset String).card + 11 ≤ 11 ∧
    (scrollAndCollectLinks [] 11 pgEmpty).isSome = true := by
  have hU : ∀ i links, readLinks [] (pgEmpty.steps i).elems = Except.ok links →
      ∀ l ∈ links, l ∈ (∅ : Finset String) := by
    intro i links h l hl
    simp only [pgEmpty, readLinks] at h
    injection h with h2
    rw [← h2] at hl
    cases hl
  exact ⟨hU, by decide, (discovery_terminates [] pgEmpty ∅ 11 hU (by decide)).1⟩

/-- C7 (amended): every discovery result is sorted lexicographically by
normalised URL and free of duplicates; when a *positive* target capacity is
supplied, the loop stops once the collected set reaches it and the result
has at most that many links.  (A capacity of `0` is falsy in Python, so
the code ignores it — see the counterexample.) -/
theorem discovery_result_ordering (qid : String) (cap : Option Nat)
    (fuel : Nat) (pg : PageObs) (kws : List String) :
    (∀ out, collectQuestionAnswerLinks qid cap fuel pg =
        some (Except.ok out) →
      out.Sorted (· ≤ ·) ∧ out.Nodup ∧
        ∀ m, cap = some m → 0 < m → out.length ≤ m) ∧
    (∀ out, scrollAndCollectLinks kws fuel pg = some (Except.ok out) →
      out.Sorted (· ≤ ·) ∧ out.Nodup) ∧
    (∀ obs s s', qstep qid cap obs s = .next s' →
      capReached cap s'.collected.card = false) := by
  refine ⟨?_, ?_, ?_⟩
  · intro out h
    obtain ⟨c, rfl⟩ := collectQ_ok_shape qid cap fuel pg out h
    exact qfinish_spec cap c
  · intro out h
    obtain ⟨c, rfl⟩ := scroll_ok_shape kws fuel pg out h
    exact ⟨sortedLinks_sorted _, sortedLinks_nodup _⟩
  · intro obs s s' h
    exact qstep_next_not_cap qid cap obs s s' h

/-- Witness for `discovery_result_ordering`: a concrete run with capacity
1 on the empty page, which returns the empty sorted list. -/
theorem discovery_result_ordering_witness :
    collectQuestionAnswerLinks "1" (some 1) 11 pgEmpty =
      some (Except.ok []) ∧
    ([] : List String).Sorted (· ≤ ·) ∧ ([] : List String).Nodup ∧
    (∀ m, (some 1 : Option Nat) = some m → 0 < m →
      ([] : List String).length ≤ m) := by
  have h : collectQuestionAnswerLinks "1" (some 1) 11 pgEmpty =
      some (Except.ok []) := by decide
  obtain ⟨h1, h2, h3⟩ :=
    (discovery_result_ordering "1" (some 1) 11 pgEmpty []).1 [] h
  exact ⟨h, h1, h2, h3⟩

/-- C7 counterexample: a target capacity of `0` is supplied, yet the loop
does not stop at capacity and the result contains more than `0` links,
because `if max_answers and len(collected_links) >= max_answers` and
`if max_answers` treat `0` as falsy. -/
theorem discovery_capacity_zero_counterexample :
    collectQuestionAnswerLinks "1" (some 0) 12 pgOne =
      some (Except.ok [ansUrl]) ∧ ¬([ansUrl].length ≤ 0) := by
  constructor
  · decide
  · decide

/-- C8 (amended): in `_scroll_and_collect_links`, a malformed element — one
whose href read yields no value — is skipped for that element only and
never aborts the pass, and a pass whose element reads never raise cannot
abort with an error; but an element read that *raises* propagates (the
extraction loop has no per-element handler — see the counterexample), as
does a failure of the initial navigation. -/
theorem discovery_per_element_failures (kws : List String) (pg : PageObs)
    (fuel : Nat) :
    (∀ xs ys, readLinks kws (xs ++ Except.ok none :: ys)
        = readLinks kws (xs ++ ys)) ∧
    (pg.gotoRes = Except.ok () →
      (∀ i e, e ∈ (pg.steps i).elems → ∀ msg, e ≠ Except.error msg) →
      ∀ msg, scrollAndCollectLinks kws fuel pg ≠ some (Except.error msg)) ∧
    (∀ msg, pg.gotoRes = Except.error msg →
      scrollAndCollectLinks kws fuel pg = some (Except.error msg)) := by
  refine ⟨readLinks_append_none kws, ?_, ?_⟩
  · intro hgoto hcl msg
    unfold scrollAndCollectLinks
    rw [hgoto]
    exact dloop_no_error kws pg.steps hcl fuel 0 _ msg
  · intro msg hgoto
    unfold scrollAndCollectLinks
    rw [hgoto]

/-- Witness for `discovery_per_element_failures`: the empty page, whose
element reads trivially never raise. -/
theorem discovery_per_element_failures_witness :
    pgEmpty.gotoRes = Except.ok () ∧
    (∀ i e, e ∈ (pgEmpty.steps i).elems → ∀ msg, e ≠ Except.error msg) ∧
    (∀ msg, scrollAndCollectLinks ["x"] 11 pgEmpty ≠
      some (Except.error msg)) := by
  have hcl : ∀ i e, e ∈ (pgEmpty.steps i).elems →
      ∀ msg, e ≠ Except.error msg := by
    intro i e he
    simp [pgEmpty] at he
  exact ⟨rfl, hcl,
    (discovery_per_element_failures ["x"] pgEmpty 11).2.1 rfl hcl⟩

/-- C8 counterexample: on a page whose first matched element's attribute
read raises, the whole discovery pass aborts with that error — the
per-element failure is not swallowed. -/
theorem discovery_element_error_aborts :
    scrollAndCollectLinks ["/answer/"] 2 pgBad =
      some (Except.error "boom") := by
  decide

/-! ### Lemmas about comment pagination -/

theorem reqList_get? :
    ∀ (k offset i : Nat), (reqList offset k)[i]? =
      if i < k then some (offset + 20 * i) else none := by
  intro k
  induction k with
  | zero => intro offset i; simp [reqList]
  | succ k ih =>
    intro offset i
    cases i with
    | zero =>
      rw [reqList]
      simp
    | succ i =>
      rw [reqList]
      simp only [List.getElem?_cons_succ]
      rw [ih (offset + 20) i]
      by_cases h : i < k
      · rw [if_pos h, if_pos (by omega)]
        congr 1
        ring
      · rw [if_neg h, if_neg (by omega)]

theorem childLoop_char_empty (childApi : String → Nat → RawResp ChildPage)
    (cid : String) :
    ∀ n fuel offset acc, n < fuel →
      (∀ j, j < n →
        (fetchChildPage (childApi cid (offset + 20 * j))).data ≠ [] ∧
        pagingIsEnd (fetchChildPage (childApi cid (offset + 20 * j))).paging
          = false) →
      (fetchChildPage (childApi cid (offset + 20 * n))).data = [] →
      childLoop childApi cid fuel offset acc =
        some (acc ++ flatChildren childApi cid offset n) := by
  intro n
  induction n with
  | zero =>
    intro fuel offset acc hf _ hstop
    cases fuel with
    | zero => omega
    | succ fuel =>
      simp only [Nat.mul_zero, Nat.add_zero] at hstop
      rw [childLoop, if_pos hstop]
      simp [flatChildren]
  | succ n ih =>
    intro fuel offset acc hf hcont hstop
    cases fuel with
    | zero => omega
    | succ fuel =>
      have h0 := hcont 0 (by omega)
      simp only [Nat.mul_zero, Nat.add_zero] at h0
      have hcont' : ∀ j, j < n →
          (fetchChildPage (childApi cid (offset + 20 + 20 * j))).data ≠ [] ∧
          pagingIsEnd
            (fetchChildPage (childApi cid (offset + 20 + 20 * j))).paging
            = false := by
        intro j hj
        have h := hcont (j + 1) (by omega)
        have e : offset + 20 * (j + 1) = offset + 20 + 20 * j := by ring
        rwa [e] at h
      have hstop' :
          (fetchChildPage (childApi cid (offset + 20 + 20 * n))).data = [] := by
        have e : offset + 20 * (n + 1) = offset + 20 + 20 * n := by ring
        rwa [e] at hstop
      rw [childLoop, if_neg h0.1, if_neg (by simp [h0.2]),
        ih fuel (offset + 20) _ (by omega) hcont' hstop', flatChildren,
        List.append_assoc]

theorem childLoop_char_end (childApi : String → Nat → RawResp ChildPage)
    (cid : String) :
    ∀ n fuel offset acc, n < fuel →
      (∀ j, j < n →
        (fetchChildPage (childApi cid (offset + 20 * j))).data ≠ [] ∧
        pagingIsEnd (fetchChildPage (childApi cid (offset + 20 * j))).paging
          = false) →
      pagingIsEnd (fetchChildPage (childApi cid (offset + 20 * n))).paging
        = true →
      childLoop childApi cid fuel offset acc =
        some (acc ++ flatChildren childApi cid offset (n + 1)) := by
  intro n
  induction n with
  | zero =>
    intro fuel offset acc hf _ hstop
    cases fuel with
    | zero => omega
    | succ fuel =>
      simp only [Nat.mul_zero, Nat.add_zero] at hstop
      by_cases hdata : (fetchChildPage (childApi cid offset)).data = []
      · rw [childLoop, if_pos hdata]
        simp [flatChildren, hdata]
      · rw [childLoop, if_neg hdata, if_pos hstop]
        simp [flatChildren]
  | succ n ih =>
    intro fuel offset acc hf hcont hstop
    cases fuel with
    | zero => omega
    | succ fuel =>
      have h0 := hcont 0 (by omega)
      simp only [Nat.mul_zero, Nat.add_zero] at h0
      have hcont' : ∀ j, j < n →
          (fetchChildPage (childApi cid (offset + 20 + 20 * j))).data ≠ [] ∧
          pagingIsEnd
            (fetchChildPage (childApi cid (offset + 20 + 20 * j))).paging
            = false := by
        intro j hj
        have h := hcont (j + 1) (by omega)
        have e : offset + 20 * (j + 1) = offset + 20 + 20 * j := by ring
        rwa [e] at h
      have hstop' :
          pagingIsEnd
            (fetchChildPage (childApi cid (offset + 20 + 20 * n))).paging
            = true := by
        have e : offset + 20 * (n + 1) = offset + 20 + 20 * n := by ring
        rwa [e] at hstop
      rw [childLoop, if_neg h0.1, if_neg (by simp [h0.2]),
        ih fuel (offset + 20) _ (by omega) hcont' hstop']
      rw [show flatChildren childApi cid offset (n + 1 + 1) =
          (fetchChildPage (childApi cid offset)).data.map buildChild ++
            flatChildren childApi cid (offset + 20) (n + 1) from rfl,
        List.append_assoc]

theorem rootLoop_char_empty (rootApi : Nat → RawResp RootPage)
    (childApi : String → Nat → RawResp ChildPage) (cf : Nat) :
    ∀ n fuel offset acc reqs rs, n < fuel →
      (∀ j, j < n →
        (fetchRootPage (rootApi (offset + 20 * j))).data ≠ [] ∧
        pagingIsEnd (fetchRootPage (rootApi (offset + 20 * j))).paging
          = false) →
      (fetchRootPage (rootApi (offset + 20 * n))).data = [] →
      flatRoots rootApi childApi cf offset n = some rs →
      rootLoop rootApi childApi cf fuel offset acc reqs =
        some (acc ++ rs, reqs ++ reqList offset (n + 1)) := by
  intro n
  induction n with
  | zero =>
    intro fuel offset acc reqs rs hf _ hstop hflat
    cases fuel with
    | zero => omega
    | succ fuel =>
      simp only [Nat.mul_zero, Nat.add_zero] at hstop
      have hflat' : some ([] : List RootOut) = some rs := hflat
      injection hflat' with h2
      subst h2
      rw [rootLoop, if_pos hstop]
      simp [reqList]
  | succ n ih =>
    intro fuel offset acc reqs rs hf hcont hstop hflat
    cases fuel with
    | zero => omega
    | succ fuel =>
      have h0 := hcont 0 (by omega)
      simp only [Nat.mul_zero, Nat.add_zero] at h0
      rw [flatRoots] at hflat
      cases hp : processRoots childApi cf
          (fetchRootPage (rootApi offset)).data with
      | none =>
        rw [hp] at hflat
        exact Option.noConfusion hflat
      | some rs0 =>
        rw [hp] at hflat
        cases hf1 : flatRoots rootApi childApi cf (offset + 20) n with
        | none =>
          rw [hf1] at hflat
          exact Option.noConfusion hflat
        | some rs1 =>
          rw [hf1] at hflat
          have hflat' : some (rs0 ++ rs1) = some rs := hflat
          injection hflat' with h2
          subst h2
          have hcont' : ∀ j, j < n →
              (fetchRootPage (rootApi (offset + 20 + 20 * j))).data ≠ [] ∧
              pagingIsEnd
                (fetchRootPage (rootApi (offset + 20 + 20 * j))).paging
                = false := by
            intro j hj
            have h := hcont (j + 1) (by omega)
            have e : offset + 20 * (j + 1) = offset + 20 + 20 * j := by ring
            rwa [e] at h
          have hstop' :
              (fetchRootPage (rootApi (offset + 20 + 20 * n))).data = [] := by
            have e : offset + 20 * (n + 1) = offset + 20 + 20 * n := by ring
            rwa [e] at hstop
          have step : rootLoop rootApi childApi cf (fuel + 1) offset acc reqs
              = rootLoop rootApi childApi cf fuel (offset + 20) (acc ++ rs0)
                (reqs ++ [offset]) := by
            rw [rootLoop, if_neg h0.1, hp]
            show (if pagingIsEnd (fetchRootPage (rootApi offset)).paging
                  = true then
                some (acc ++ rs0, reqs ++ [offset])
              else rootLoop rootApi childApi cf fuel (offset + 20)
                (acc ++ rs0) (reqs ++ [offset]))
              = rootLoop rootApi childApi cf fuel (offset + 20) (acc ++ rs0)
                (reqs ++ [offset])
            rw [if_neg (by simp [h0.2])]
          rw [step,
            ih fuel (offset + 20) (acc ++ rs0) (reqs ++ [offset]) rs1
              (by omega) hcont' hstop' hf1]
          simp [reqList, List.append_assoc]

theorem rootLoop_char_end (rootApi : Nat → RawResp RootPage)
    (childApi : String → Nat → RawResp ChildPage) (cf : Nat) :
    ∀ n fuel offset acc reqs rs, n < fuel →
      (∀ j, j < n →
        (fetchRootPage (rootApi (offset + 20 * j))).data ≠ [] ∧
        pagingIsEnd (fetchRootPage (rootApi (offset + 20 * j))).paging
          = false) →
      pagingIsEnd (fetchRootPage (rootApi (offset + 20 * n))).paging = true →
      flatRoots rootApi childApi cf offset (n + 1) = some rs →
      rootLoop rootApi childApi cf fuel offset acc reqs =
        some (acc ++ rs, reqs ++ reqList offset (n + 1)) := by
  intro n
  induction n with
  | zero =>
    intro fuel offset acc reqs rs hf _ hstop hflat
    cases fuel with
    | zero => omega
    | succ fuel =>
      simp only [Nat.mul_zero, Nat.add_zero] at hstop
      rw [flatRoots] at hflat
      cases hp : processRoots childApi cf
          (fetchRootPage (rootApi offset)).data with
      | none =>
        rw [hp] at hflat
        exact Option.noConfusion hflat
      | some rs0 =>
        rw [hp] at hflat
        have hend : flatRoots rootApi childApi cf (offset + 20) 0 =
            some [] := rfl
        rw [hend] at hflat
        have hflat' : some (rs0 ++ []) = some rs := hflat
        injection hflat' with h2
        subst h2
        by_cases hdata : (fetchRootPage (rootApi offset)).data = []
        · have hp0 : processRoots childApi cf
              (fetchRootPage (rootApi offset)).data = some [] := by
            rw [hdata]
            rfl
          rw [hp0] at hp
          injection hp with h3
          rw [rootLoop, if_pos hdata]
          simp [← h3, reqList]
        · rw [rootLoop, if_neg hdata, hp]
          show (if pagingIsEnd (fetchRootPage (rootApi offset)).paging
                = true then
              some (acc ++ rs0, reqs ++ [offset])
            else rootLoop rootApi childApi cf fuel (offset + 20)
              (acc ++ rs0) (reqs ++ [offset]))
            = some (acc ++ (rs0 ++ []), reqs ++ reqList offset (0 + 1))
          rw [if_pos hstop]
          simp [reqList]
  | succ n ih =>
    intro fuel offset acc reqs rs hf hcont hstop hflat
    cases fuel with
    | zero => omega
    | succ fuel =>
      have h0 := hcont 0 (by omega)
      simp only [Nat.mul_zero, Nat.add_zero] at h0
      rw [flatRoots] at hflat
      cases hp : processRoots childApi cf
          (fetchRootPage (rootApi offset)).data with
      | none =>
        rw [hp] at hflat
        exact Option.noConfusion hflat
      | some rs0 =>
        rw [hp] at hflat
        cases hf1 : flatRoots rootApi childApi cf (offset + 20) (n + 1) with
        | none =>
          rw [hf1] at hflat
          exact Option.noConfusion hflat
        | some rs1 =>
          rw [hf1] at hflat
          have hflat' : some (rs0 ++ rs1) = some rs := hflat
          injection hflat' with h2
          subst h2
          have hcont' : ∀ j, j < n →
              (fetchRootPage (rootApi (offset + 20 + 20 * j))).data ≠ [] ∧
              pagingIsEnd
                (fetchRootPage (rootApi (offset + 20 + 20 * j))).paging
                = false := by
            intro j hj
            have h := hcont (j + 1) (by omega)
            have e : offset + 20 * (j + 1) = offset + 20 + 20 * j := by ring
            rwa [e] at h
          have hstop' :
              pagingIsEnd
                (fetchRootPage (rootApi (offset + 20 + 20 * n))).paging
                = true := by
            have e : offset + 20 * (n + 1) = offset + 20 + 20 * n := by ring
            rwa [e] at hstop
          have step : rootLoop rootApi childApi cf (fuel + 1) offset acc reqs
              = rootLoop rootApi childApi cf fuel (offset + 20) (acc ++ rs0)
                (reqs ++ [offset]) := by
            rw [rootLoop, if_neg h0.1, hp]
            show (if pagingIsEnd (fetchRootPage (rootApi offset)).paging
                  = true then
                some (acc ++ rs0, reqs ++ [offset])
              else rootLoop rootApi childApi cf fuel (offset + 20)
                (acc ++ rs0) (reqs ++ [offset]))
              = rootLoop rootApi childApi cf fuel (offset + 20) (acc ++ rs0)
                (reqs ++ [offset])
            rw [if_neg (by simp [h0.2])]
          rw [step,
            ih fuel (offset + 20) (acc ++ rs0) (reqs ++ [offset]) rs1
              (by omega) hcont' hstop' hf1]
          simp [reqList, List.append_assoc]

theorem processRoots_spec (childApi : String → Nat → RawResp ChildPage)
    (cf : Nat) :
    ∀ cs rs, processRoots childApi cf cs = some rs →
      rs.length = cs.length ∧
      ∀ (i : Nat) c r, cs[i]? = some c → rs[i]? = some r →
        r = { buildRootBase c with child_comments := r.child_comments } ∧
        (c.child_comment_count.getD 0 = 0 → r.child_comments = []) ∧
        (0 < c.child_comment_count.getD 0 →
          childLoop childApi (c.id.getD "") cf 0 [] =
            some r.child_comments) := by
  intro cs
  induction cs with
  | nil =>
    intro rs h
    have h' : some ([] : List RootOut) = some rs := h
    injection h' with h2
    subst h2
    refine ⟨rfl, ?_⟩
    intro i c r hc _
    simp at hc
  | cons c0 rest ih =>
    intro rs h
    rw [processRoots] at h
    by_cases hcc : 0 < c0.child_comment_count.getD 0
    · rw [if_pos hcc] at h
      cases hcl : childLoop childApi (c0.id.getD "") cf 0 [] with
      | none =>
        rw [hcl] at h
        have h' : (none : Option (List RootOut)) = some rs := h
        exact Option.noConfusion h'
      | some kids =>
        rw [hcl] at h
        cases hpr : processRoots childApi cf rest with
        | none =>
          rw [hpr] at h
          have h' : (none : Option (List RootOut)) = some rs := h
          exact Option.noConfusion h'
        | some rs' =>
          rw [hpr] at h
          have h' : some ({ buildRootBase c0 with child_comments := kids }
              :: rs') = some rs := h
          injection h' with h2
          subst h2
          obtain ⟨hlen, hspec⟩ := ih rs' hpr
          refine ⟨by simp [hlen], ?_⟩
          intro i c r hc hr
          cases i with
          | zero =>
            simp only [List.getElem?_cons_zero, Option.some.injEq] at hc hr
            subst hc
            subst hr
            refine ⟨rfl, ?_, ?_⟩
            · intro h0
              omega
            · intro _
              exact hcl
          | succ i =>
            simp only [List.getElem?_cons_succ] at hc hr
            exact hspec i c r hc hr
    · rw [if_neg hcc] at h
      cases hpr : processRoots childApi cf rest with
      | none =>
        rw [hpr] at h
        have h' : (none : Option (List RootOut)) = some rs := h
        exact Option.noConfusion h'
      | some rs' =>
        rw [hpr] at h
        have h' : some (buildRootBase c0 :: rs') = some rs := h
        injection h' with h2
        subst h2
        obtain ⟨hlen, hspec⟩ := ih rs' hpr
        refine ⟨by simp [hlen], ?_⟩
        intro i c r hc hr
        cases i with
        | zero =>
          simp only [List.getElem?_cons_zero, Option.some.injEq] at hc hr
          subst hc
          subst hr
          exact ⟨rfl, fun _ => rfl, fun hpos => absurd hpos hcc⟩
        | succ i =>
          simp only [List.getElem?_cons_succ] at hc hr
          exact hspec i c r hc hr

/-- C5: pagination exhaustion and graceful end — the root-comment fetch
loop requests offsets 0, 20, 40, … (advancing by exactly the page size
between consecutive requests), stops at the first page whose `data` is
empty (issuing no request past it) or whose `paging.is_end` is true
(yielding that page's items first), and `_fetch_comment_page` absorbs
transport, HTTP, and parse failures into an empty final page, so they end
the sequence gracefully with the items gathered so far. -/
theorem pagination_exhaustion (rootApi : Nat → RawResp RootPage)
    (childApi : String → Nat → RawResp ChildPage) (cf rootFuel n : Nat)
    (hfuel : n < rootFuel)
    (hcont : ∀ j, j < n → (fetchRootPage (rootApi (20 * j))).data ≠ [] ∧
      pagingIsEnd (fetchRootPage (rootApi (20 * j))).paging = false) :
    ((fetchRootPage (rootApi (20 * n))).data = [] →
      ∀ rs, flatRoots rootApi childApi cf 0 n = some rs →
        extractComments rootApi childApi rootFuel cf =
          some (rs, reqList 0 (n + 1))) ∧
    (pagingIsEnd (fetchRootPage (rootApi (20 * n))).paging = true →
      ∀ rs, flatRoots rootApi childApi cf 0 (n + 1) = some rs →
        extractComments rootApi childApi rootFuel cf =
          some (rs, reqList 0 (n + 1))) ∧
    (∀ offset k i, (reqList offset k)[i]? =
      if i < k then some (offset + 20 * i) else none) ∧
    fetchRootPage RawResp.netFail =
      { data := [], paging := some { is_end := some true } } ∧
    fetchRootPage RawResp.httpNotOk =
      { data := [], paging := some { is_end := some true } } ∧
    fetchRootPage RawResp.parseFail =
      { data := [], paging := some { is_end := some true } } := by
  have hcont0 : ∀ j, j < n →
      (fetchRootPage (rootApi (0 + 20 * j))).data ≠ [] ∧
      pagingIsEnd (fetchRootPage (rootApi (0 + 20 * j))).paging = false := by
    intro j hj
    simpa using hcont j hj
  refine ⟨?_, ?_, fun offset k i => reqList_get? k offset i, rfl, rfl, rfl⟩
  · intro hstop rs hflat
    have hstop0 : (fetchRootPage (rootApi (0 + 20 * n))).data = [] := by
      simpa using hstop
    have h := rootLoop_char_empty rootApi childApi cf n rootFuel 0 [] [] rs
      hfuel hcont0 hstop0 hflat
    simpa [extractComments] using h
  · intro hstop rs hflat
    have hstop0 :
        pagingIsEnd (fetchRootPage (rootApi (0 + 20 * n))).paging = true := by
      simpa using hstop
    have h := rootLoop_char_end rootApi childApi cf n rootFuel 0 [] [] rs
      hfuel hcont0 hstop0 hflat
    simpa [extractComments] using h

/-- Witness for `pagination_exhaustion`: the mock API returning pages of
20 items at offsets 0, 20, 40 and then a transport failure yields exactly
60 items with requests at offsets 0, 20, 40, 60 only. -/
theorem pagination_exhaustion_witness :
    (3 : Nat) < 5 ∧
    (∀ j, j < 3 → (fetchRootPage (mockRootApi (20 * j))).data ≠ [] ∧
      pagingIsEnd (fetchRootPage (mockRootApi (20 * j))).paging = false) ∧
    (fetchRootPage (mockRootApi (20 * 3))).data = [] ∧
    flatRoots mockRootApi mockChildApi 1 0 3 = some mockItems ∧
    extractComments mockRootApi mockChildApi 5 1 =
      some (mockItems, reqList 0 4) ∧
    mockItems.length = 60 := by
  have hcont : ∀ j, j < 3 →
      (fetchRootPage (mockRootApi (20 * j))).data ≠ [] ∧
      pagingIsEnd (fetchRootPage (mockRootApi (20 * j))).paging = false := by
    decide
  have hstop : (fetchRootPage (mockRootApi (20 * 3))).data = [] := by decide
  have hflat : flatRoots mockRootApi mockChildApi 1 0 3 = some mockItems := by
    decide
  refine ⟨by decide, hcont, hstop, hflat, ?_, by decide⟩
  exact (pagination_exhaustion mockRootApi mockChildApi 1 5 3 (by decide)
    hcont).1 hstop mockItems hflat

/-- C6: comment tree ordering — `processRoots` builds one output root per
delivered raw comment, positionally (API-delivered order, no re-sorting);
a root with declared child count 0 keeps empty children while a root with
positive child count carries exactly its own fully-resolved child
pagination; each child pagination concatenates its pages' children in
page-then-intra-page arrival order; and across root pages the roots are
concatenated in page order. -/
theorem comment_tree_order (rootApi : Nat → RawResp RootPage)
    (childApi : String → Nat → RawResp ChildPage) (cf : Nat) :
    (∀ cs rs, processRoots childApi cf cs = some rs →
      rs.length = cs.length ∧
      ∀ (i : Nat) c r, cs[i]? = some c → rs[i]? = some r →
        r = { buildRootBase c with child_comments := r.child_comments } ∧
        (c.child_comment_count.getD 0 = 0 → r.child_comments = []) ∧
        (0 < c.child_comment_count.getD 0 →
          childLoop childApi (c.id.getD "") cf 0 [] =
            some r.child_comments)) ∧
    (∀ cid n fuel offset acc, n < fuel →
      (∀ j, j < n →
        (fetchChildPage (childApi cid (offset + 20 * j))).data ≠ [] ∧
        pagingIsEnd (fetchChildPage (childApi cid (offset + 20 * j))).paging
          = false) →
      (fetchChildPage (childApi cid (offset + 20 * n))).data = [] →
      childLoop childApi cid fuel offset acc =
        some (acc ++ flatChildren childApi cid offset n)) ∧
    (∀ cid n fuel offset acc, n < fuel →
      (∀ j, j < n →
        (fetchChildPage (childApi cid (offset + 20 * j))).data ≠ [] ∧
        pagingIsEnd (fetchChildPage (childApi cid (offset + 20 * j))).paging
          = false) →
      pagingIsEnd (fetchChildPage (childApi cid (offset + 20 * n))).paging
        = true →
      childLoop childApi cid fuel offset acc =
        some (acc ++ flatChildren childApi cid offset (n + 1))) ∧
    (∀ n rootFuel rs, n < rootFuel →
      (∀ j, j < n → (fetchRootPage (rootApi (20 * j))).data ≠ [] ∧
        pagingIsEnd (fetchRootPage (rootApi (20 * j))).paging = false) →
      pagingIsEnd (fetchRootPage (rootApi (20 * n))).paging = true →
      flatRoots rootApi childApi cf 0 (n + 1) = some rs →
      extractComments rootApi childApi rootFuel cf =
        some (rs, reqList 0 (n + 1))) := by
  refine ⟨processRoots_spec childApi cf,
    fun cid => childLoop_char_empty childApi cid,
    fun cid => childLoop_char_end childApi cid, ?_⟩
  intro n rootFuel rs hfuel hcont hstop hflat
  have hcont0 : ∀ j, j < n →
      (fetchRootPage (rootApi (0 + 20 * j))).data ≠ [] ∧
      pagingIsEnd (fetchRootPage (rootApi (0 + 20 * j))).paging = false := by
    intro j hj
    simpa using hcont j hj
  have hstop0 :
      pagingIsEnd (fetchRootPage (rootApi (0 + 20 * n))).paging = true := by
    simpa using hstop
  have h := rootLoop_char_end rootApi childApi cf n rootFuel 0 [] [] rs
    hfuel hcont0 hstop0 hflat
  simpa [extractComments] using h

/-- Witness for `comment_tree_order`: one root declaring two children
delivered across two child pages; the built tree keeps the root and its
children in page-then-intra-page order. -/
theorem comment_tree_order_witness :
    processRoots c6ChildApi 3 [rcParent] = some [c6Root] ∧
    [c6Root].length = [rcParent].length ∧
    c6Root = { buildRootBase rcParent with
      child_comments := c6Root.child_comments } ∧
    (0 < rcParent.child_comment_count.getD 0 →
      childLoop c6ChildApi (rcParent.id.getD "") 3 0 [] =
        some c6Root.child_comments) ∧
    childLoop c6ChildApi "cid7" 3 0 [] =
      some [buildChild rchild1, buildChild rchild2] := by
  have hp : processRoots c6ChildApi 3 [rcParent] = some [c6Root] := by decide
  obtain ⟨hlen, hspec⟩ :=
    (comment_tree_order c6RootApi c6ChildApi 3).1 [rcParent] [c6Root] hp
  obtain ⟨h1, _, h3⟩ := hspec 0 rcParent c6Root (by decide) (by decide)
  exact ⟨hp, hlen, h1, h3, by decide⟩

/-! ### Lemmas about the crawl orchestrator -/

theorem pendB_true {done : Finset String} {it : String × Kind}
    (h : it.1 ∉ done) : pendB done it = true := by
  simp [pendB, h]

theorem pendB_false {done : Finset String} {it : String × Kind}
    (h : it.1 ∈ done) : pendB done it = false := by
  simp [pendB, h]

theorem inDoneB_true {done : Finset String} {it : String × Kind}
    (h : it.1 ∈ done) : inDoneB done it = true := by
  simp [inDoneB, h]

theorem inDoneB_false {done : Finset String} {it : String × Kind}
    (h : it.1 ∉ done) : inDoneB done it = false := by
  simp [inDoneB, h]

theorem runStep_done (fetch : String → Kind → Except String Unit)
    {s : RunState} {it : String × Kind} (h : it.1 ∈ s.done) :
    runStep fetch s it = { s with succ := s.succ + 1 } := by
  simp [runStep, h]

theorem runStep_ok (fetch : String → Kind → Except String Unit)
    {s : RunState} {it : String × Kind} {u : Unit}
    (hm : it.1 ∉ s.done) (h : fetch it.1 it.2 = .ok u) :
    runStep fetch s it =
      ⟨insert it.1 s.done, s.succ + 1, s.failed,
        s.attempted ++ [it.1]⟩ := by
  simp [runStep, hm, h]

theorem runStep_err (fetch : String → Kind → Except String Unit)
    {s : RunState} {it : String × Kind} {msg : String}
    (hm : it.1 ∉ s.done) (h : fetch it.1 it.2 = .error msg) :
    runStep fetch s it =
      { s with failed := s.failed + 1,
               attempted := s.attempted ++ [it.1] } := by
  simp [runStep, hm, h]

theorem runStep_done_sub (fetch : String → Kind → Except String Unit)
    (s : RunState) (it : String × Kind) :
    s.done ⊆ (runStep fetch s it).done := by
  by_cases hmem : it.1 ∈ s.done
  · rw [runStep_done fetch hmem]
  · cases hf : fetch it.1 it.2 with
    | ok u =>
      rw [runStep_ok fetch hmem hf]
      exact Finset.subset_insert _ _
    | error msg =>
      rw [runStep_err fetch hmem hf]

theorem runLoop_done_mono (fetch : String → Kind → Except String Unit) :
    ∀ (m : List (String × Kind)) (s : RunState),
      s.done ⊆ (runLoop fetch m s).done := by
  intro m
  induction m with
  | nil => intro s; exact fun _ hx => hx
  | cons it rest ih =>
    intro s
    exact (runStep_done_sub fetch s it).trans (ih (runStep fetch s it))

theorem runLoop_count (fetch : String → Kind → Except String Unit) :
    ∀ (m : List (String × Kind)) (s : RunState),
      (runLoop fetch m s).succ + (runLoop fetch m s).failed =
        s.succ + s.failed + m.length := by
  intro m
  induction m with
  | nil => intro s; simp [runLoop]
  | cons it rest ih =>
    intro s
    have hloop : runLoop fetch (it :: rest) s =
        runLoop fetch rest (runStep fetch s it) := rfl
    rw [hloop]
    by_cases hmem : it.1 ∈ s.done
    · rw [runStep_done fetch hmem, ih]
      simp
      omega
    · cases hf : fetch it.1 it.2 with
      | ok u =>
        rw [runStep_ok fetch hmem hf, ih]
        simp
        omega
      | error msg =>
        rw [runStep_err fetch hmem hf, ih]
        simp
        omega

theorem runLoop_char (fetch : String → Kind → Except String Unit) :
    ∀ (m : List (String × Kind)) (s : RunState), (m.map Prod.fst).Nodup →
      (runLoop fetch m s).done = s.done ∪
        (((m.filter (pendB s.done)).filter (fetchOk fetch)).map
          Prod.fst).toFinset ∧
      (runLoop fetch m s).succ = s.succ +
        (m.filter (inDoneB s.done)).length +
        ((m.filter (pendB s.done)).filter (fetchOk fetch)).length ∧
      (runLoop fetch m s).failed = s.failed +
        ((m.filter (pendB s.done)).filter
          (fun it => !fetchOk fetch it)).length ∧
      (runLoop fetch m s).attempted = s.attempted ++
        (m.filter (pendB s.done)).map Prod.fst := by
  intro m
  induction m with
  | nil =>
    intro s _
    exact ⟨by simp [runLoop], by simp [runLoop], by simp [runLoop],
      by simp [runLoop]⟩
  | cons it rest ih =>
    intro s hnd
    rw [List.map_cons, List.nodup_cons] at hnd
    obtain ⟨hnotin, hnd'⟩ := hnd
    have hloop : runLoop fetch (it :: rest) s =
        runLoop fetch rest (runStep fetch s it) := rfl
    by_cases hmem : it.1 ∈ s.done
    · obtain ⟨hd, hs, hfl, ha⟩ := ih { s with succ := s.succ + 1 } hnd'
      have e1 : (it :: rest).filter (pendB s.done) =
          rest.filter (pendB s.done) := by
        simp [List.filter_cons, pendB_false hmem]
      have e2 : (it :: rest).filter (inDoneB s.done) =
          it :: rest.filter (inDoneB s.done) := by
        simp [List.filter_cons, inDoneB_true hmem]
      rw [hloop, runStep_done fetch hmem]
      refine ⟨?_, ?_, ?_, ?_⟩
      · rw [hd, e1]
      · rw [hs, e1, e2]
        simp
        omega
      · rw [hfl, e1]
      · rw [ha, e1]
    · have e1 : (it :: rest).filter (pendB s.done) =
          it :: rest.filter (pendB s.done) := by
        simp [List.filter_cons, pendB_true hmem]
      have e2 : (it :: rest).filter (inDoneB s.done) =
          rest.filter (inDoneB s.done) := by
        simp [List.filter_cons, inDoneB_false hmem]
      have hkey : ∀ x, x ∈ rest → x.1 ≠ it.1 := by
        intro x hx he
        exact hnotin (he ▸ List.mem_map_of_mem Prod.fst hx)
      have efp : rest.filter (pendB (insert it.1 s.done)) =
          rest.filter (pendB s.done) := by
        apply List.filter_congr
        intro x hx
        simp [pendB, Finset.mem_insert, hkey x hx]
      have efd : rest.filter (inDoneB (insert it.1 s.done)) =
          rest.filter (inDoneB s.done) := by
        apply List.filter_congr
        intro x hx
        simp [inDoneB, Finset.mem_insert, hkey x hx]
      cases hf : fetch it.1 it.2 with
      | ok u =>
        obtain ⟨hd, hs, hfl, ha⟩ := ih
          ⟨insert it.1 s.done, s.succ + 1, s.failed,
            s.attempted ++ [it.1]⟩ hnd'
        have hok : fetchOk fetch it = true := by simp [fetchOk, hf]
        rw [hloop, runStep_ok fetch hmem hf]
        refine ⟨?_, ?_, ?_, ?_⟩
        · rw [hd, e1]
          simp only [efp]
          rw [List.filter_cons, if_pos hok, List.map_cons,
            List.toFinset_cons, Finset.insert_union, Finset.union_insert]
        · rw [hs, e1, e2]
          simp only [efp, efd]
          rw [List.filter_cons, if_pos hok]
          simp
          omega
        · rw [hfl, e1]
          simp only [efp]
          rw [List.filter_cons, if_neg (by simp [hok])]
        · rw [ha, e1]
          simp only [efp]
          simp [List.append_assoc]
      | error msg =>
        obtain ⟨hd, hs, hfl, ha⟩ := ih
          { s with failed := s.failed + 1,
                   attempted := s.attempted ++ [it.1] } hnd'
        have hok : fetchOk fetch it = false := by simp [fetchOk, hf]
        rw [hloop, runStep_err fetch hmem hf]
        refine ⟨?_, ?_, ?_, ?_⟩
        · rw [hd, e1]
          rw [List.filter_cons, if_neg (by simp [hok])]
        · rw [hs, e1, e2]
          rw [List.filter_cons, if_neg (by simp [hok])]
        · rw [hfl, e1]
          rw [List.filter_cons, if_pos (by simp [hok])]
          simp
          omega
        · rw [ha, e1]
          simp [List.append_assoc]

theorem runLoopQ_eq (fetch : String → Except String Unit) :
    ∀ (urls : List String) (s : RunState),
      runLoopQ fetch urls s =
        runLoop (fun u _ => fetch u)
          (urls.map (fun u => (u, Kind.answer))) s := by
  intro urls
  induction urls with
  | nil => intro s; rfl
  | cons u rest ih =>
    intro s
    show runLoopQ fetch rest (runStepQ fetch s u) = _
    rw [List.map_cons]
    show _ = runLoop (fun u _ => fetch u)
      (rest.map fun u => (u, Kind.answer))
      (runStep (fun u _ => fetch u) s (u, Kind.answer))
    exact ih (runStepQ fetch s u)

theorem attempted_not_done (fetch : String → Kind → Except String Unit)
    (m : List (String × Kind)) (d : Finset String)
    (hnd : (m.map Prod.fst).Nodup) :
    ∀ u, u ∈ d → u ∉ (runLoop fetch m ⟨d, 0, 0, []⟩).attempted := by
  obtain ⟨-, -, -, ha⟩ := runLoop_char fetch m ⟨d, 0, 0, []⟩ hnd
  intro u hu hmem
  rw [ha] at hmem
  simp only [List.nil_append] at hmem
  obtain ⟨x, hx, hxu⟩ := List.mem_map.mp hmem
  have hpend := List.of_mem_filter hx
  simp [pendB, hxu, hu] at hpend

/-- C1: resume correctness with reconciliation — before any item is
fetched, the done set is the progress record's set (empty when the file is
missing or unparsable) unioned with the URLs recovered from the disk scan;
the run then attempts exactly the manifest items whose URL is not in that
done set, in original manifest order, and never fetches an item whose
artifact was recovered from disk. -/
theorem resume_reconciliation (env : LedgerEnv)
    (fetch : String → Kind → Except String Unit)
    (m : List (String × Kind)) (hnd : (m.map Prod.fst).Nodup) :
    (scrapeUserRun env fetch m).attempted =
      (m.filter (pendB (initialDone env))).map Prod.fst ∧
    (∀ u, u ∈ scanDoneUrlsFromDisk env.disk →
      u ∉ (scrapeUserRun env fetch m).attempted) ∧
    loadDone none = ∅ ∧
    (∀ msg, loadDone (some (Except.error msg)) = ∅) := by
  obtain ⟨-, -, -, ha⟩ :=
    runLoop_char fetch m ⟨initialDone env, 0, 0, []⟩ hnd
  have haG : (scrapeUserRun env fetch m).attempted =
      (m.filter (pendB (initialDone env))).map Prod.fst := by
    simpa [scrapeUserRun, runLoop] using ha
  refine ⟨haG, ?_, rfl, fun msg => rfl⟩
  intro u hu
  exact attempted_not_done fetch m (initialDone env) hnd u
    (Finset.mem_union_right _ hu)

/-- Witness for `resume_reconciliation`: with artifacts for `urlA` on
disk and no progress record, a two-item manifest attempts only `urlB`. -/
theorem resume_reconciliation_witness :
    (([(urlA, Kind.answer), (urlB, Kind.answer)].map Prod.fst).Nodup) ∧
    (scrapeUserRun envDiskAC fetchAllOk
        [(urlA, Kind.answer), (urlB, Kind.answer)]).attempted =
      ([(urlA, Kind.answer), (urlB, Kind.answer)].filter
        (pendB (initialDone envDiskAC))).map Prod.fst ∧
    (scrapeUserRun envDiskAC fetchAllOk
        [(urlA, Kind.answer), (urlB, Kind.answer)]).attempted = [urlB] := by
  have hnd : (([(urlA, Kind.answer), (urlB, Kind.answer)].map
      Prod.fst).Nodup) := by decide
  exact ⟨hnd,
    (resume_reconciliation envDiskAC fetchAllOk _ hnd).1, by decide⟩

/-- C2: ledger monotonicity — reconciliation unions the disk-recovered
URLs (so the reconciled done set contains every URL whose artifact's
provenance was recovered) and the loaded set; the crawl loop only ever
grows the done set; and a later run that loads the ledger persisted by an
earlier run ends with a superset of the earlier run's done set. -/
theorem ledger_monotonicity (env : LedgerEnv)
    (fetch : String → Kind → Except String Unit)
    (m : List (String × Kind)) (s : RunState) (env2 : LedgerEnv)
    (fetch2 : String → Kind → Except String Unit)
    (m2 : List (String × Kind)) :
    scanDoneUrlsFromDisk env.disk ⊆ initialDone env ∧
    loadDone env.progressFile ⊆ initialDone env ∧
    s.done ⊆ (runLoop fetch m s).done ∧
    initialDone env ⊆ (scrapeUserRun env fetch m).done ∧
    ((scrapeUserRun env fetch m).done ⊆ loadDone env2.progressFile →
      (scrapeUserRun env fetch m).done ⊆
        (scrapeUserRun env2 fetch2 m2).done) := by
  refine ⟨Finset.subset_union_right, Finset.subset_union_left,
    runLoop_done_mono fetch m s,
    runLoop_done_mono fetch m ⟨initialDone env, 0, 0, []⟩, ?_⟩
  intro hsub
  exact hsub.trans (Finset.Subset.trans Finset.subset_union_left
    (runLoop_done_mono fetch2 m2 ⟨initialDone env2, 0, 0, []⟩))

/-- Witness for `ledger_monotonicity`: a second run whose progress record
is exactly the first run's persisted done set preserves that set. -/
theorem ledger_monotonicity_witness :
    ((scrapeUserRun envDiskAC fetchFail3 manifest5).done ⊆
      loadDone envNext.progressFile) ∧
    (scrapeUserRun envDiskAC fetchFail3 manifest5).done ⊆
      (scrapeUserRun envNext fetchAllOk manifest5).done := by
  have h : (scrapeUserRun envDiskAC fetchFail3 manifest5).done ⊆
      loadDone envNext.progressFile := by decide
  exact ⟨h, (ledger_monotonicity envDiskAC fetchFail3 manifest5
    ⟨∅, 0, 0, []⟩ envNext fetchAllOk manifest5).2.2.2.2 h⟩

/-- C3: partial-failure isolation — every item of the batch is processed
and counted (success + failure counts always sum to the batch size,
whatever the failures), each failed pending item is counted in
`fail_count`, is not added to the done set, and is attempted at most once
within the run; the attempted sequence is exactly the pending part of the
manifest in order, so no failure aborts the remaining items. -/
theorem partial_failure_isolation (env : LedgerEnv)
    (fetch : String → Kind → Except String Unit)
    (m : List (String × Kind)) (hnd : (m.map Prod.fst).Nodup) :
    (∀ (fetch' : String → Kind → Except String Unit)
      (m' : List (String × Kind)) (s : RunState),
      (runLoop fetch' m' s).succ + (runLoop fetch' m' s).failed =
        s.succ + s.failed + m'.length) ∧
    (scrapeUserRun env fetch m).failed =
      ((m.filter (pendB (initialDone env))).filter
        (fun it => !fetchOk fetch it)).length ∧
    (∀ u k, (u, k) ∈ m → u ∉ initialDone env →
      fetchOk fetch (u, k) = false →
      u ∉ (scrapeUserRun env fetch m).done) ∧
    (scrapeUserRun env fetch m).attempted.Nodup ∧
    (scrapeUserRun env fetch m).attempted =
      (m.filter (pendB (initialDone env))).map Prod.fst := by
  obtain ⟨hd, -, hfl, ha⟩ :=
    runLoop_char fetch m ⟨initialDone env, 0, 0, []⟩ hnd
  have haG : (scrapeUserRun env fetch m).attempted =
      (m.filter (pendB (initialDone env))).map Prod.fst := by
    simpa [scrapeUserRun, runLoop] using ha
  refine ⟨fun fetch' m' s => runLoop_count fetch' m' s, ?_, ?_, ?_, haG⟩
  · simpa [scrapeUserRun, runLoop] using hfl
  · intro u k hm hpend hfail hdone
    have hdG : (scrapeUserRun env fetch m).done = initialDone env ∪
        (((m.filter (pendB (initialDone env))).filter
          (fetchOk fetch)).map Prod.fst).toFinset := by
      simpa [scrapeUserRun, runLoop] using hd
    rw [hdG] at hdone
    rcases Finset.mem_union.mp hdone with h | h
    · exact hpend h
    · rw [List.mem_toFinset] at h
      obtain ⟨x, hx, hxu⟩ := List.mem_map.mp h
      have hxm : x ∈ m :=
        (List.filter_sublist _).subset ((List.filter_sublist _).subset hx)
      have hxok : fetchOk fetch x = true :=
        List.of_mem_filter hx
      have hxeq : x = (u, k) :=
        List.inj_on_of_nodup_map hnd hxm hm (by rw [hxu])
      rw [hxeq] at hxok
      rw [hfail] at hxok
      cases hxok
  · rw [haG]
    exact List.Nodup.sublist
      ((List.filter_sublist m).map Prod.fst) hnd

/-- Witness for `partial_failure_isolation`: a fresh run of five items
whose third fails ends with 4 successes, 1 failure, and items 1, 2, 4, 5
marked done. -/
theorem partial_failure_isolation_witness :
    ((manifest5.map Prod.fst).Nodup) ∧
    (scrapeUserRun envFresh fetchFail3 manifest5).succ +
      (scrapeUserRun envFresh fetchFail3 manifest5).failed = 5 ∧
    (scrapeUserRun envFresh fetchFail3 manifest5).succ = 4 ∧
    (scrapeUserRun envFresh fetchFail3 manifest5).failed = 1 ∧
    (scrapeUserRun envFresh fetchFail3 manifest5).done =
      {urlA, urlB, urlD, urlE} ∧
    (scrapeUserRun envFresh fetchFail3 manifest5).attempted.Nodup := by
  have hnd : ((manifest5.map Prod.fst).Nodup) := by decide
  have h5 : (scrapeUserRun envFresh fetchFail3 manifest5).succ +
      (scrapeUserRun envFresh fetchFail3 manifest5).failed = 5 := by
    have h := (partial_failure_isolation envFresh fetchFail3 manifest5
      hnd).1 fetchFail3 manifest5 ⟨initialDone envFresh, 0, 0, []⟩
    simpa [scrapeUserRun, runLoop] using h
  exact ⟨hnd, h5, by decide, by decide, by decide,
    (partial_failure_isolation envFresh fetchFail3 manifest5 hnd).2.2.2.1⟩

/-- C10: already-done items count as successes — in both `scrape_user` and
`scrape_question`, an item found in the done set is skipped without any
fetch yet still increments `success_count`, so the final `success_count`
is the number of skipped already-done items plus the number of items newly
fetched and persisted in this run. -/
theorem already_done_counted_success (env : LedgerEnv)
    (fetch : String → Kind → Except String Unit) (m : List (String × Kind))
    (envQ : LedgerEnv) (fetchQ : String → Except String Unit)
    (urls : List String) (hnd : (m.map Prod.fst).Nodup)
    (hndQ : urls.Nodup) :
    (scrapeUserRun env fetch m).succ =
      (m.filter (inDoneB (initialDone env))).length +
      ((m.filter (pendB (initialDone env))).filter (fetchOk fetch)).length ∧
    (∀ u, u ∈ initialDone env →
      u ∉ (scrapeUserRun env fetch m).attempted) ∧
    (scrapeQuestionRun envQ fetchQ urls).succ =
      (urls.filter (fun u => decide (u ∈ initialDone envQ))).length +
      ((urls.filter (fun u => !decide (u ∈ initialDone envQ))).filter
        (fetchOkQ fetchQ)).length := by
  obtain ⟨-, hs, -, -⟩ :=
    runLoop_char fetch m ⟨initialDone env, 0, 0, []⟩ hnd
  have e : ∀ l : List String,
      (l.map (fun u => (u, Kind.answer))).map Prod.fst = l := by
    intro l
    induction l with
    | nil => rfl
    | cons a t ih => simp [ih]
  have hndm :
      ((urls.map (fun u => (u, Kind.answer))).map Prod.fst).Nodup := by
    rw [e urls]
    exact hndQ
  obtain ⟨-, hsq, -, -⟩ := runLoop_char (fun u _ => fetchQ u)
    (urls.map (fun u => (u, Kind.answer))) ⟨initialDone envQ, 0, 0, []⟩ hndm
  refine ⟨by simpa [scrapeUserRun, runLoop] using hs,
    fun u hu => attempted_not_done fetch m (initialDone env) hnd u hu, ?_⟩
  have hrunq : scrapeQuestionRun envQ fetchQ urls =
      runLoop (fun u _ => fetchQ u)
        (urls.map (fun u => (u, Kind.answer)))
        ⟨initialDone envQ, 0, 0, []⟩ :=
    runLoopQ_eq fetchQ urls ⟨initialDone envQ, 0, 0, []⟩
  rw [hrunq, hsq]
  simp only [List.filter_map, List.length_map, Nat.zero_add]
  rfl

/-- Witness for `already_done_counted_success`: with `urlA` already in the
ledger and `urlB` pending, both the user run and the question run report
two successes while fetching only `urlB`. -/
theorem already_done_counted_success_witness :
    (([(urlA, Kind.answer), (urlB, Kind.answer)].map Prod.fst).Nodup) ∧
    ([urlA, urlB] : List String).Nodup ∧
    (scrapeUserRun envDoneA fetchAllOk
      [(urlA, Kind.answer), (urlB, Kind.answer)]).succ = 2 ∧
    (scrapeUserRun envDoneA fetchAllOk
      [(urlA, Kind.answer), (urlB, Kind.answer)]).attempted = [urlB] ∧
    (scrapeQuestionRun envDoneA fetchAllOkQ [urlA, urlB]).succ = 2 ∧
    (scrapeUserRun envDoneA fetchAllOk
        [(urlA, Kind.answer), (urlB, Kind.answer)]).succ =
      ([(urlA, Kind.answer), (urlB, Kind.answer)].filter
        (inDoneB (initialDone envDoneA))).length +
      (([(urlA, Kind.answer), (urlB, Kind.answer)].filter
        (pendB (initialDone envDoneA))).filter
        (fetchOk fetchAllOk)).length := by
  have hnd : (([(urlA, Kind.answer), (urlB, Kind.answer)].map
      Prod.fst).Nodup) := by decide
  have hndQ : ([urlA, urlB] : List String).Nodup := by decide
  refine ⟨hnd, hndQ, by decide, by decide, by decide, ?_⟩
  exact (already_done_counted_success envDoneA fetchAllOk _ envDoneA
    fetchAllOkQ [urlA, urlB] hnd hndQ).1
